import Mathlib

/-!
ASM_SIM: the execution engine of `machine.c`

A shallow embedding of `src/machine.c`.  The single global `machine` of the C
program becomes an explicit value of `machine_t` that every function takes and
returns.  Every `uint64_t` is a natural number below `2 ^ 64`; each C operation
that can wrap carries its reduction modulo `2 ^ 64` explicitly.  A function
that can stop on an `assert` returns an `Option`, with `none` for the abort
and for a step whose result C leaves undefined (a division by zero, a shift by
64 or more, a variable read before it is set).

The stack block is a list of bytes, and `in_block` tells whether an access
lies inside a block.  A load or store of `execute_MSL` that does not lie inside
the stack block is `none`: C defines no result for it.  `grow_stack` always
yields the new bounds; `grow_stack_in_block` tells whether its `memset` and
`memcpy` calls lie inside their blocks, and where they do not, C defines no
result and the block that `grow_stack` yields stands for nothing.
-/

namespace ASMSim

/-! ## Constants and types of the absent headers -/

/-- Modelled from the spec: `machine.h` is absent; a word has 8 bytes. -/
abbrev WORD_SIZE_BYTES : Nat := 8

/-- Modelled from the spec: `machine.h` is absent; a word has 64 bits. -/
abbrev WORD_SIZE_BITS : Nat := 64

/-- Modelled from the spec: `machine.h` is absent; a half word has 32 bits. -/
abbrev HALFWORD_SIZE_BITS : Nat := 32

/-- Modelled from the spec: `machine.h` is absent; the zero flag, tested as a
bit by `print_memory`. -/
abbrev CONDITION_ZERO : Nat := 1

/-- Modelled from the spec: `machine.h` is absent; the negative flag. -/
abbrev CONDITION_NEGATIVE : Nat := 2

/-- Modelled from the spec: `machine.h` is absent; the positive flag. -/
abbrev CONDITION_POSITIVE : Nat := 4

/-- The modulus of `uint64_t` arithmetic. -/
abbrev U64 : Nat := 2 ^ 64

/-- The modulus of `uint32_t` arithmetic. -/
abbrev U32 : Nat := 2 ^ 32

/-- A byte that stands for memory whose content C leaves indeterminate: a fresh
`malloc` block, or a read outside a block.  It is not zero, so that no zero
byte of a result can come from it. -/
abbrev INDETERMINATE : Nat := 0xCD

/-- Modelled from the spec: `code.h` is absent; the opcodes are those that
`execute` dispatches on.  The `default` branch of `execute` (an opcode outside
this list) only prints and changes nothing. -/
inductive operation_t
  | OPERATION_add | OPERATION_sub | OPERATION_subs | OPERATION_mul
  | OPERATION_sdiv | OPERATION_udiv | OPERATION_neg
  | OPERATION_lsl | OPERATION_lsr | OPERATION_and | OPERATION_orr
  | OPERATION_eor | OPERATION_mvn
  | OPERATION_mov | OPERATION_str | OPERATION_ldr
  | OPERATION_cmp
  | OPERATION_b | OPERATION_bl
  | OPERATION_bne | OPERATION_beq | OPERATION_blt | OPERATION_bgt
  | OPERATION_ble | OPERATION_bge
  | OPERATION_ret | OPERATION_nop
  | OPERATION_clz | OPERATION_cls
  deriving DecidableEq

/-- Modelled from the spec: `code.h` is absent; the four operand kinds of the
data model, and `OPERAND_none` for a slot the instruction does not use. -/
inductive operand_type_t
  | OPERAND_none | OPERAND_constant | OPERAND_address
  | OPERAND_register | OPERAND_memory
  deriving DecidableEq

/-- Modelled from the spec: `code.h` is absent; the four register kinds that
`look_thru_registers` and `put_value` switch on. -/
inductive register_type_t
  | REGISTER_w | REGISTER_x | REGISTER_sp | REGISTER_pc
  deriving DecidableEq

open operation_t operand_type_t register_type_t

/-- Modelled from the spec: `code.h` is absent; an operand record with the
fields the source reads.  `reg_num` indexes the 31 general registers, so an
index outside the register array is excluded by the type. -/
structure operand_t where
  type : operand_type_t
  reg_type : register_type_t
  reg_num : Fin 31
  constant : Nat

/-- Modelled from the spec: `code.h` is absent; an opcode and three operand
slots. -/
structure instruction_t where
  operation : operation_t
  operands : Fin 3 → operand_t

/-- Modelled from the spec: `machine.h` is absent; the fields of the global
`machine` that the execution engine reads and writes.  The loaded code and
its address range are used by `fetch` alone and are left out. -/
structure machine_t where
  registers : Fin 31 → Nat
  sp : Nat
  pc : Nat
  stack : List Nat
  stack_top : Nat
  stack_bot : Nat
  conditions : Nat

/-! ## Machine arithmetic and memory blocks -/

/-- Subtraction of two `uint64_t` values, as C computes `a - b`. -/
def sub64 (a b : Nat) : Nat := (a + U64 - b) % U64

/-- Conversion of a C `int` to `uint64_t`. -/
def to_u64 (i : Int) : Nat := (i % (U64 : Int)).toNat

/-- The low `n` bytes of `v`, least significant first. -/
def le_bytes : Nat → Nat → List Nat
  | 0, _ => []
  | n + 1, v => (v % 256) :: le_bytes n (v / 256)

/-- The number that a list of bytes encodes, least significant first. -/
def le_value : List Nat → Nat
  | [] => 0
  | b :: bs => b + 256 * le_value bs

/-- The access to the `n` bytes of `buf` from offset `off` on lies inside
`buf`. -/
def in_block (buf : List Nat) (off n : Nat) : Bool := decide (off + n ≤ buf.length)

/-- Write the bytes `bs` into `buf` from offset `off` on.  It stands for the C
write where `in_block buf off bs.length` holds; a byte whose offset lies
outside `buf` is no byte of `buf` and leaves it as it is. -/
def store_bytes : List Nat → Nat → List Nat → List Nat
  | buf, _, [] => buf
  | buf, off, b :: bs => store_bytes (buf.set off b) (off + 1) bs

/-- Read `n` bytes of `buf` from offset `off` on.  It stands for the C read
where `in_block buf off n` holds; an offset outside `buf` is no byte of `buf`
and reads `INDETERMINATE`. -/
def load_bytes (buf : List Nat) (off n : Nat) : List Nat :=
  (List.range n).map fun i => buf.getD (off + i) INDETERMINATE

/-- A fresh block of `n` bytes, `n` being a `size_t`. -/
def malloc (n : Nat) : List Nat := List.replicate (n % U64) INDETERMINATE

/-- The C call `memset(buf + off, c, n)`. -/
def memset (buf : List Nat) (off c n : Nat) : List Nat :=
  store_bytes buf off (List.replicate n c)

/-- The C call `memcpy(dst + off, src, n)`. -/
def memcpy (dst : List Nat) (off : Nat) (src : List Nat) (n : Nat) : List Nat :=
  store_bytes dst off (load_bytes src 0 n)

/-! ## The stack memory manager -/

/-- Embedding of `grow_stack`: allocate more space for the simulated stack.
The block of a machine is never `NULL` (`init_machine` allocates it), so the
copy under `machine.stack != NULL` always runs. -/
def grow_stack (new_sp : Nat) (machine : machine_t) : machine_t :=
  if new_sp < machine.stack_top then
    let new_sp :=
      if new_sp % WORD_SIZE_BYTES ≠ 0 then new_sp - new_sp % WORD_SIZE_BYTES else new_sp
    let new_stack := malloc ((sub64 machine.stack_bot new_sp + 1) % U64)
    let new_stack := memset new_stack 0 0 (sub64 machine.stack_top new_sp)
    let new_stack := memcpy new_stack (sub64 machine.stack_top new_sp) machine.stack
      ((sub64 machine.stack_bot machine.stack_top + 1) % U64)
    { machine with stack := new_stack, stack_top := new_sp }
  else if new_sp > machine.stack_bot then
    let new_sp :=
      if new_sp % WORD_SIZE_BYTES ≠ 0
      then (new_sp + (WORD_SIZE_BYTES - new_sp % WORD_SIZE_BYTES)) % U64
      else (new_sp + WORD_SIZE_BYTES) % U64
    let new_stack := malloc (sub64 new_sp machine.stack_top)
    let new_stack := memset new_stack (sub64 machine.stack_bot machine.stack_top) 0
      (sub64 new_sp machine.stack_bot)
    let new_stack := memcpy new_stack 0 machine.stack
      (sub64 machine.stack_bot machine.stack_top)
    { machine with stack := new_stack, stack_bot := sub64 new_sp 1 }
  else machine

/-- The accesses of `grow_stack`: every `memset` and `memcpy` of the call lies
inside the fresh block it writes, and the `memcpy` reads inside the old block.
Where this is false, `machine.c` runs over a block of `malloc` and C defines no
result for the call. -/
def grow_stack_in_block (new_sp : Nat) (machine : machine_t) : Bool :=
  if new_sp < machine.stack_top then
    let new_sp :=
      if new_sp % WORD_SIZE_BYTES ≠ 0 then new_sp - new_sp % WORD_SIZE_BYTES else new_sp
    let new_stack := malloc ((sub64 machine.stack_bot new_sp + 1) % U64)
    in_block new_stack 0 (sub64 machine.stack_top new_sp) &&
    in_block new_stack (sub64 machine.stack_top new_sp)
      ((sub64 machine.stack_bot machine.stack_top + 1) % U64) &&
    in_block machine.stack 0 ((sub64 machine.stack_bot machine.stack_top + 1) % U64)
  else if new_sp > machine.stack_bot then
    let new_sp :=
      if new_sp % WORD_SIZE_BYTES ≠ 0
      then (new_sp + (WORD_SIZE_BYTES - new_sp % WORD_SIZE_BYTES)) % U64
      else (new_sp + WORD_SIZE_BYTES) % U64
    let new_stack := malloc (sub64 new_sp machine.stack_top)
    in_block new_stack (sub64 machine.stack_bot machine.stack_top)
      (sub64 new_sp machine.stack_bot) &&
    in_block new_stack 0 (sub64 machine.stack_bot machine.stack_top) &&
    in_block machine.stack 0 (sub64 machine.stack_bot machine.stack_top)
  else true

/-- Embedding of `init_machine`, without the loading of the code.  The header
that defines `REGISTER_NULL` is absent, so the marker is a parameter. -/
def init_machine (REGISTER_NULL sp pc : Nat) : machine_t :=
  { registers := fun _ => REGISTER_NULL
    sp := sp
    pc := pc
    stack_top := sp
    stack_bot := (sp + WORD_SIZE_BYTES - 1) % U64
    stack := memset (malloc WORD_SIZE_BYTES) 0 0 WORD_SIZE_BYTES
    conditions := 0 }

/-! ## The operand resolver -/

/-- Embedding of `look_thru_registers`. -/
def look_thru_registers (machine : machine_t) (operand : operand_t) : Nat :=
  match operand.reg_type with
  | REGISTER_w => (machine.registers operand.reg_num * 2 ^ 32 % U64) / 2 ^ 32
  | REGISTER_x => machine.registers operand.reg_num
  | REGISTER_sp => machine.sp
  | REGISTER_pc => machine.pc

/-- Embedding of `get_value`; `none` is the failed `assert`. -/
def get_value (machine : machine_t) (operand : operand_t) : Option Nat :=
  if operand.type = OPERAND_constant ∨ operand.type = OPERAND_address
      ∨ operand.type = OPERAND_register then
    if operand.type = OPERAND_constant ∨ operand.type = OPERAND_address then
      some operand.constant
    else if operand.type = OPERAND_register then
      some (look_thru_registers machine operand)
    else some 0
  else none

/-- Embedding of `put_value`; `none` is the failed `assert`. -/
def put_value (operand : operand_t) (value : Nat) (machine : machine_t) :
    Option machine_t :=
  if operand.type = OPERAND_register then
    match operand.reg_type with
    | REGISTER_w =>
      some { machine with
        registers := Function.update machine.registers operand.reg_num
          ((value * 2 ^ 32 % U64) / 2 ^ 32) }
    | REGISTER_x =>
      some { machine with
        registers := Function.update machine.registers operand.reg_num value }
    | REGISTER_sp => some { machine with sp := value }
    | REGISTER_pc => some { machine with pc := value }
  else none

/-- Embedding of `get_memory_address`; `none` is the failed `assert`. -/
def get_memory_address (machine : machine_t) (operand : operand_t) : Option Nat :=
  if operand.type = OPERAND_memory then
    some ((look_thru_registers machine operand + operand.constant) % U64)
  else none

/-! ## The execution dispatcher -/

/-- Embedding of `execute_arithmetic`.  Both operands are read before the
opcode is looked at.  Division by zero has no defined result and is `none`,
as is an opcode that leaves `result` unset. -/
def execute_arithmetic (instruction : instruction_t) (machine : machine_t) :
    Option machine_t := do
  let op1 ← get_value machine (instruction.operands 1)
  let op2 ← get_value machine (instruction.operands 2)
  let result ← match instruction.operation with
    | OPERATION_add => some ((op1 + op2) % U64)
    | OPERATION_sub | OPERATION_subs => some (sub64 op1 op2)
    | OPERATION_mul => some (op1 * op2 % U64)
    | OPERATION_sdiv | OPERATION_udiv => if op2 = 0 then none else some (op1 / op2)
    | OPERATION_neg => some (to_u64 (-1) * op1 % U64)
    | _ => none
  put_value (instruction.operands 0) result machine

/-- Embedding of `execute_bitwise`.  A shift by 64 or more has no defined
result and is `none`, as is an opcode that leaves `result` unset. -/
def execute_bitwise (instruction : instruction_t) (machine : machine_t) :
    Option machine_t := do
  let op1 ← get_value machine (instruction.operands 1)
  let op2 ← if instruction.operation ≠ OPERATION_mvn
    then get_value machine (instruction.operands 2) else some 0
  let result ← match instruction.operation with
    | OPERATION_lsl => if op2 < 64 then some (op1 * 2 ^ op2 % U64) else none
    | OPERATION_lsr => if op2 < 64 then some (op1 / 2 ^ op2) else none
    | OPERATION_and => some (op1 &&& op2)
    | OPERATION_orr => some (op1 ||| op2)
    | OPERATION_eor => some (op1 ^^^ op2)
    | OPERATION_mvn => some (U64 - 1 - op1)
    | _ => none
  put_value (instruction.operands 0) result machine

/-- Embedding of `execute_MSL`.  A `uint32_t *` access at index `i` touches
the 4 bytes from byte offset `4 * i`, a `uint64_t *` access at index `i` the
8 bytes from byte offset `8 * i`, least significant byte first.  An access
that does not lie inside the stack block is `none`. -/
def execute_MSL (instruction : instruction_t) (machine : machine_t) :
    Option machine_t := do
  let sim_mem_address ← if instruction.operation ≠ OPERATION_mov
    then get_memory_address machine (instruction.operands 1) else some 0
  match instruction.operation with
  | OPERATION_mov =>
    let op2 ← get_value machine (instruction.operands 1)
    put_value (instruction.operands 0) op2 machine
  | OPERATION_ldr =>
    if (instruction.operands 0).reg_type = REGISTER_w then
      if in_block machine.stack (4 * (sub64 sim_mem_address machine.stack_top / 4)) 4 then
        put_value (instruction.operands 0)
          (le_value (load_bytes machine.stack
            (4 * (sub64 sim_mem_address machine.stack_top / 4)) 4)) machine
      else none
    else
      if in_block machine.stack (8 * (sub64 sim_mem_address machine.stack_top / 8)) 8 then
        put_value (instruction.operands 0)
          (le_value (load_bytes machine.stack
            (8 * (sub64 sim_mem_address machine.stack_top / 8)) 8)) machine
      else none
  | OPERATION_str =>
    let stack_add := (sub64 sim_mem_address machine.stack_top / 4) % U32
    let store ← get_value machine (instruction.operands 0)
    let store :=
      if (instruction.operands 0).reg_type = REGISTER_w then store &&& 0xFFFFFFFF
      else store
    if in_block machine.stack (4 * stack_add) 4 then
      let machine :=
        { machine with
          stack := store_bytes machine.stack (4 * stack_add) (le_bytes 4 (store % U32)) }
      if (instruction.operands 0).reg_type = REGISTER_x then do
        let value ← get_value machine (instruction.operands 0)
        if in_block machine.stack (8 * (sub64 sim_mem_address machine.sp / 8)) 8 then
          some { machine with
            stack := store_bytes machine.stack
              (8 * (sub64 sim_mem_address machine.sp / 8)) (le_bytes 8 value) }
        else none
      else some machine
    else none
  | _ => some machine

/-- Embedding of `execute_compare`.  The difference is a `uint64_t`, so the
test `op1 - op2 < 0` is a test on a natural number.  When no branch assigns
`flag` it is left unset, which is `none`. -/
def execute_compare (instruction : instruction_t) (machine : machine_t) :
    Option machine_t := do
  let op1 ← get_value machine (instruction.operands 0)
  let op2 ← get_value machine (instruction.operands 1)
  let flag ←
    if sub64 op1 op2 = 0 then some CONDITION_ZERO
    else if sub64 op1 op2 < 0 then some CONDITION_NEGATIVE
    else if sub64 op1 op2 > 0 then some CONDITION_POSITIVE
    else none
  some { machine with conditions := flag }

/-- Embedding of `execute_basic_branch`. -/
def execute_basic_branch (instruction : instruction_t) (machine : machine_t) :
    Option machine_t := do
  let op1 ← get_value machine (instruction.operands 0)
  match instruction.operation with
  | OPERATION_b => some { machine with pc := op1 }
  | OPERATION_bl =>
    let machine :=
      { machine with
        registers := Function.update machine.registers 30 ((machine.pc + 4) % U64) }
    some { machine with pc := op1 }
  | _ => some machine

/-- Embedding of `execute_conditional_branch`. -/
def execute_conditional_branch (instruction : instruction_t) (machine : machine_t) :
    Option machine_t := do
  let op1 ← get_value machine (instruction.operands 0)
  match instruction.operation with
  | OPERATION_bne =>
    if machine.conditions = CONDITION_NEGATIVE ∨ machine.conditions = CONDITION_POSITIVE
    then some { machine with pc := op1 } else some machine
  | OPERATION_beq =>
    if machine.conditions = CONDITION_ZERO
    then some { machine with pc := op1 } else some machine
  | OPERATION_blt =>
    if machine.conditions = CONDITION_NEGATIVE
    then some { machine with pc := op1 } else some machine
  | OPERATION_bgt =>
    if machine.conditions = CONDITION_POSITIVE
    then some { machine with pc := op1 } else some machine
  | OPERATION_ble =>
    if machine.conditions = CONDITION_NEGATIVE ∨ machine.conditions = CONDITION_ZERO
    then some { machine with pc := op1 } else some machine
  | OPERATION_bge =>
    if machine.conditions = CONDITION_POSITIVE ∨ machine.conditions = CONDITION_ZERO
    then some { machine with pc := op1 } else some machine
  | _ => some machine

/-- Embedding of `execute_return`. -/
def execute_return (machine : machine_t) : machine_t :=
  { machine with pc := machine.registers 30 }

/-- The loop `while (copy != 0) { ct++; copy >>= 1; }` shared by the two
counting functions; it returns the final `ct`. -/
def count_shifts (copy : Nat) (ct : Int) : Int :=
  if h : copy ≠ 0 then count_shifts (copy / 2) (ct + 1) else ct
termination_by copy
decreasing_by exact Nat.div_lt_self (Nat.pos_of_ne_zero h) (by decide)

/-- Embedding of `count_leading_zeros32`; the result is a C `int`. -/
def count_leading_zeros32 (num : Nat) : Int :=
  if num = 0 then HALFWORD_SIZE_BITS
  else HALFWORD_SIZE_BITS - count_shifts num 0

/-- Embedding of `count_leading_zeros64`; the result is a C `int`. -/
def count_leading_zeros64 (num : Nat) : Int :=
  if num = 0 then WORD_SIZE_BITS
  else WORD_SIZE_BITS - count_shifts num 0

/-- Embedding of `execute_count_lead`.  An opcode that leaves `found` unset
is `none`. -/
def execute_count_lead (instruction : instruction_t) (machine : machine_t) :
    Option machine_t := do
  let found ← match instruction.operation with
    | OPERATION_cls =>
      if (instruction.operands 1).reg_type = REGISTER_w then do
        let op1 := (← get_value machine (instruction.operands 1)) % U32
        let lead := op1 / 2 ^ (HALFWORD_SIZE_BITS - 1) &&& 1
        let op1 := if lead ≠ 0 then U32 - 1 - op1 else op1
        some (to_u64 (count_leading_zeros32 op1 - 1))
      else do
        let op1 ← get_value machine (instruction.operands 1)
        let lead := op1 / 2 ^ (WORD_SIZE_BITS - 1) &&& 1
        let op1 := if lead ≠ 0 then U64 - 1 - op1 else op1
        some (to_u64 (count_leading_zeros64 op1 - 1))
    | OPERATION_clz =>
      if (instruction.operands 1).reg_type = REGISTER_w then do
        let op1 := (← get_value machine (instruction.operands 1)) % U32
        some (to_u64 (count_leading_zeros32 op1))
      else do
        let op1 ← get_value machine (instruction.operands 1)
        some (to_u64 (count_leading_zeros64 op1))
    | _ => none
  put_value (instruction.operands 0) found machine

/-- Embedding of `execute`. -/
def execute (instruction : instruction_t) (machine : machine_t) : Option machine_t :=
  match instruction.operation with
  | OPERATION_add | OPERATION_sub | OPERATION_subs | OPERATION_mul
  | OPERATION_sdiv | OPERATION_udiv | OPERATION_neg =>
    execute_arithmetic instruction machine
  | OPERATION_lsl | OPERATION_lsr | OPERATION_and | OPERATION_orr
  | OPERATION_eor | OPERATION_mvn =>
    execute_bitwise instruction machine
  | OPERATION_mov | OPERATION_str | OPERATION_ldr =>
    execute_MSL instruction machine
  | OPERATION_cmp => execute_compare instruction machine
  | OPERATION_b | OPERATION_bl => execute_basic_branch instruction machine
  | OPERATION_bne | OPERATION_beq | OPERATION_blt | OPERATION_bgt
  | OPERATION_ble | OPERATION_bge =>
    execute_conditional_branch instruction machine
  | OPERATION_ret => some (execute_return machine)
  | OPERATION_nop => some machine
  | OPERATION_clz | OPERATION_cls => execute_count_lead instruction machine

/-! ## Sample operands and states -/

/-- The operand `x<i>`. -/
def reg_x (i : Fin 31) : operand_t := ⟨OPERAND_register, REGISTER_x, i, 0⟩

/-- The operand `w<i>`. -/
def reg_w (i : Fin 31) : operand_t := ⟨OPERAND_register, REGISTER_w, i, 0⟩

/-- The immediate operand `#c`. -/
def imm (c : Nat) : operand_t := ⟨OPERAND_constant, REGISTER_x, 0, c⟩

/-- The memory operand `[sp]`. -/
def mem_sp : operand_t := ⟨OPERAND_memory, REGISTER_sp, 0, 0⟩

/-- An operand slot that the instruction does not use. -/
def no_operand : operand_t := ⟨OPERAND_none, REGISTER_x, 0, 0⟩

/-- The stack invariant of the data model: aligned bounds, a non-empty range,
and a block of exactly that many bytes. -/
def stack_inv (m : machine_t) : Prop :=
  m.stack_top % 8 = 0 ∧ (m.stack_bot + 1) % 8 = 0 ∧ m.stack_top ≤ m.stack_bot ∧
    m.stack.length = m.stack_bot - m.stack_top + 1

/-- A machine with a one-word stack at addresses 4096 to 4103 that holds the
bytes 1 to 8, `sp` at `sp`, and `x1 = v`. -/
def one_word_machine (sp v : Nat) : machine_t :=
  { registers := fun i => if i = 1 then v else 0
    sp := sp
    pc := 0
    stack := [1, 2, 3, 4, 5, 6, 7, 8]
    stack_top := 4096
    stack_bot := 4103
    conditions := 0 }

/-- A machine with a zeroed two-word stack at addresses 4096 to 4111, `sp` on
the second word, and `x1 = v`. -/
def two_word_machine (v : Nat) : machine_t :=
  { registers := fun i => if i = 1 then v else 0
    sp := 4104
    pc := 0
    stack := List.replicate 16 0
    stack_top := 4096
    stack_bot := 4111
    conditions := 0 }

/-- A machine whose one-word stack holds the last 8 addresses,
`2 ^ 64 - 8` to `2 ^ 64 - 1`. -/
def last_word_machine : machine_t :=
  { registers := fun _ => 0
    sp := 2 ^ 64 - 8
    pc := 0
    stack := [1, 2, 3, 4, 5, 6, 7, 8]
    stack_top := 2 ^ 64 - 8
    stack_bot := 2 ^ 64 - 1
    conditions := 0 }

/-- A machine whose stack is the single byte at address 0. -/
def one_byte_machine : machine_t :=
  { registers := fun _ => 0
    sp := 0
    pc := 0
    stack := [7]
    stack_top := 0
    stack_bot := 0
    conditions := 0 }

/-- The one-word machine with `sp` 512 bytes below `stack_top` and
`x1 = 0xDEADBEEF`. -/
def low_sp_machine : machine_t := one_word_machine 3584 0xDEADBEEF

/-- The one-word machine with `x1 = 1`. -/
def x1_one_machine : machine_t := one_word_machine 4096 1

/-- The one-word machine with all 64 bits of `x1` set. -/
def x1_ones_machine : machine_t := one_word_machine 4096 (2 ^ 64 - 1)

/-- The instruction `clz x0, x1`. -/
def clz_x0_x1 : instruction_t := ⟨OPERATION_clz, ![reg_x 0, reg_x 1, no_operand]⟩

/-- The instruction `cls x0, x1`. -/
def cls_x0_x1 : instruction_t := ⟨OPERATION_cls, ![reg_x 0, reg_x 1, no_operand]⟩

/-- The instruction `str w1, [sp]`. -/
def str_w1_sp : instruction_t := ⟨OPERATION_str, ![reg_w 1, mem_sp, no_operand]⟩

/-- The instruction `ldr w2, [sp]`. -/
def ldr_w2_sp : instruction_t := ⟨OPERATION_ldr, ![reg_w 2, mem_sp, no_operand]⟩

/-- A machine whose stack at 4096 has `2 ^ 34 + 8` zero bytes, with `sp` at
byte offset `2 ^ 34` of it and `x1 = 0xDEADBEEF`. -/
def big_stack_machine : machine_t :=
  { registers := fun i => if i = 1 then 0xDEADBEEF else 0
    sp := 4096 + 2 ^ 34
    pc := 0
    stack := List.replicate (2 ^ 34 + 8) 0
    stack_top := 4096
    stack_bot := 4096 + 2 ^ 34 + 7
    conditions := 0 }

/-- The one-word machine after a compare that set the zero flag. -/
def zero_flag_machine : machine_t :=
  { one_word_machine 4096 0 with conditions := CONDITION_ZERO }

/-- The predicate of each conditional branch on the flag, in the words of the
specification: `bne` negative or positive, `beq` zero, `blt` negative, `bgt`
positive, `ble` negative or zero, `bge` positive or zero. -/
def spec_branch_taken (op : operation_t) (flag : Nat) : Bool :=
  match op with
  | OPERATION_bne => flag == CONDITION_NEGATIVE || flag == CONDITION_POSITIVE
  | OPERATION_beq => flag == CONDITION_ZERO
  | OPERATION_blt => flag == CONDITION_NEGATIVE
  | OPERATION_bgt => flag == CONDITION_POSITIVE
  | OPERATION_ble => flag == CONDITION_NEGATIVE || flag == CONDITION_ZERO
  | OPERATION_bge => flag == CONDITION_POSITIVE || flag == CONDITION_ZERO
  | _ => false

/-- A 64-bit value read as a signed integer in two's complement. -/
def to_signed64 (a : Nat) : Int := if a < 2 ^ 63 then (a : Int) else (a : Int) - 2 ^ 64

/-! ## Lengths of blocks -/

theorem length_store_bytes (bs : List Nat) :
    ∀ (buf : List Nat) (off : Nat), (store_bytes buf off bs).length = buf.length := by
  induction bs with
  | nil => intro buf off; rfl
  | cons b bs ih => intro buf off; simp [store_bytes, ih]

theorem length_malloc (n : Nat) : (malloc n).length = n % U64 := by
  simp [malloc]

theorem length_memset (buf : List Nat) (off c n : Nat) :
    (memset buf off c n).length = buf.length := by
  simp [memset, length_store_bytes]

theorem length_memcpy (dst src : List Nat) (off n : Nat) :
    (memcpy dst off src n).length = dst.length := by
  simp [memcpy, length_store_bytes]

/-! ## Contents of blocks -/

theorem getElem?_store_bytes (bs : List Nat) :
    ∀ (buf : List Nat) (off i : Nat),
      (store_bytes buf off bs)[i]? =
        if off ≤ i ∧ i < off + bs.length ∧ i < buf.length then bs[i - off]? else buf[i]? := by
  induction bs with
  | nil =>
    intro buf off i
    have hc : ¬ (off ≤ i ∧ i < off + ([] : List Nat).length ∧ i < buf.length) := by
      simp only [List.length_nil]; omega
    rw [store_bytes, if_neg hc]
  | cons b bs ih =>
    intro buf off i
    rw [store_bytes, ih, List.length_set, List.length_cons, List.getElem?_set]
    by_cases h0 : off = i
    · subst h0
      by_cases hl : off < buf.length
      · simp [hl]
      · simp [hl, List.getElem?_eq_none (Nat.le_of_not_lt hl)]
    · by_cases hc : off + 1 ≤ i ∧ i < off + 1 + bs.length ∧ i < buf.length
      · have hc2 : off ≤ i ∧ i < off + (bs.length + 1) ∧ i < buf.length := by omega
        rw [if_pos hc, if_pos hc2]
        obtain ⟨k, hk⟩ : ∃ k, i - off = k + 1 := ⟨i - off - 1, by omega⟩
        rw [hk, List.getElem?_cons_succ]
        congr 1
        omega
      · have hc2 : ¬ (off ≤ i ∧ i < off + (bs.length + 1) ∧ i < buf.length) := by omega
        rw [if_neg hc, if_neg hc2, if_neg h0]

theorem length_load_bytes (buf : List Nat) (off n : Nat) :
    (load_bytes buf off n).length = n := by
  simp [load_bytes]

theorem getElem?_load_bytes (buf : List Nat) (off n i : Nat) (h : i < n) :
    (load_bytes buf off n)[i]? = some (buf.getD (off + i) INDETERMINATE) := by
  simp [load_bytes, List.getElem?_range h]

theorem load_bytes_store_bytes (buf bs : List Nat) (off : Nat)
    (h : off + bs.length ≤ buf.length) :
    load_bytes (store_bytes buf off bs) off bs.length = bs := by
  apply List.ext_getElem?
  intro i
  by_cases hi : i < bs.length
  · rw [getElem?_load_bytes _ _ _ _ hi, List.getD_eq_getElem?_getD, getElem?_store_bytes,
      if_pos ⟨by omega, by omega, by omega⟩]
    simp [hi]
  · rw [List.getElem?_eq_none (by simp [length_load_bytes]; omega),
      List.getElem?_eq_none (by omega)]

theorem length_le_bytes (n : Nat) : ∀ v, (le_bytes n v).length = n := by
  induction n with
  | zero => intro v; rfl
  | succ n ih => intro v; simp [le_bytes, ih]

theorem le_value_le_bytes (n : Nat) : ∀ v, le_value (le_bytes n v) = v % 256 ^ n := by
  induction n with
  | zero => intro v; simp [le_bytes, le_value, Nat.mod_one]
  | succ n ih =>
    intro v
    rw [le_bytes, le_value, ih, pow_succ, Nat.mul_comm (256 ^ n) 256, Nat.mod_mul]

/-- Upward growth, with the wrapping subtractions resolved. -/
theorem grow_stack_up (m : machine_t) (a : Nat) (ha : a < m.stack_top)
    (hrange : m.stack_top ≤ m.stack_bot) (hbot : m.stack_bot < 2 ^ 64) :
    grow_stack a m =
      { m with
        stack := memcpy
          (memset (malloc ((m.stack_bot - (a - a % 8) + 1) % U64)) 0 0
            (m.stack_top - (a - a % 8)))
          (m.stack_top - (a - a % 8)) m.stack (m.stack_bot - m.stack_top + 1)
        stack_top := a - a % 8 } := by
  have hnew : (if a % WORD_SIZE_BYTES ≠ 0 then a - a % WORD_SIZE_BYTES else a) = a - a % 8 := by
    simp only [WORD_SIZE_BYTES]
    split_ifs <;> omega
  have h1 : sub64 m.stack_bot (a - a % 8) = m.stack_bot - (a - a % 8) := by
    simp only [sub64, U64]; omega
  have h2 : sub64 m.stack_top (a - a % 8) = m.stack_top - (a - a % 8) := by
    simp only [sub64, U64]; omega
  have h3 : (sub64 m.stack_bot m.stack_top + 1) % U64 = m.stack_bot - m.stack_top + 1 := by
    simp only [sub64, U64]; omega
  unfold grow_stack
  rw [if_pos ha]
  simp only [hnew, h1, h2, h3]

/-- Upward growth keeps every byte of the old range at its address. -/
theorem grow_stack_up_preserves (m : machine_t) (a x : Nat) (ha : a < m.stack_top)
    (hrange : m.stack_top ≤ m.stack_bot) (hbot : m.stack_bot < 2 ^ 64)
    (hlen : m.stack.length = m.stack_bot - m.stack_top + 1)
    (hfit : ¬ (a < 8 ∧ m.stack_bot = 2 ^ 64 - 1))
    (hx1 : m.stack_top ≤ x) (hx2 : x ≤ m.stack_bot) :
    (grow_stack a m).stack[x - (grow_stack a m).stack_top]? = m.stack[x - m.stack_top]? := by
  rw [grow_stack_up m a ha hrange hbot]
  have hle : a - a % 8 ≤ a := Nat.sub_le _ _
  have h0 : 8 ≤ a → 8 ≤ a - a % 8 := by omega
  generalize a - a % 8 = b at hle h0 ⊢
  have hsz : (memset (malloc ((m.stack_bot - b + 1) % U64)) 0 0 (m.stack_top - b)).length
      = m.stack_bot - b + 1 := by
    rw [length_memset, length_malloc]
    simp only [U64]
    omega
  simp only [memcpy]
  rw [getElem?_store_bytes, length_load_bytes, hsz,
    if_pos ⟨by omega, by omega, by omega⟩,
    getElem?_load_bytes _ _ _ _ (by omega), List.getD_eq_getElem?_getD]
  have hidx : 0 + (x - b - (m.stack_top - b)) = x - m.stack_top := by omega
  rw [hidx, List.getElem?_eq_getElem (by omega)]
  rfl

/-- Upward growth lies inside its blocks exactly when the size asked of
`malloc` does not wrap and the old block holds the bytes that are copied. -/
theorem grow_stack_in_block_up (m : machine_t) (a : Nat) (ha : a < m.stack_top)
    (hrange : m.stack_top ≤ m.stack_bot) (hbot : m.stack_bot < 2 ^ 64) :
    grow_stack_in_block a m = true ↔
      m.stack_bot - (a - a % 8) + 1 < 2 ^ 64 ∧
        m.stack_bot - m.stack_top + 1 ≤ m.stack.length := by
  have hnew : (if a % WORD_SIZE_BYTES ≠ 0 then a - a % WORD_SIZE_BYTES else a) = a - a % 8 := by
    simp only [WORD_SIZE_BYTES]
    split_ifs <;> omega
  have hle : a - a % 8 ≤ a := Nat.sub_le _ _
  unfold grow_stack_in_block
  rw [if_pos ha]
  simp only [hnew, in_block, length_malloc, Bool.and_eq_true, decide_eq_true_eq, sub64, U64]
  generalize a - a % 8 = b at hle ⊢
  omega

theorem getElem?_memset (buf : List Nat) (off c n i : Nat)
    (h : off ≤ i ∧ i < off + n ∧ i < buf.length) : (memset buf off c n)[i]? = some c := by
  rw [memset, getElem?_store_bytes, List.length_replicate, if_pos h,
    List.getElem?_replicate, if_pos (by omega)]

/-- Downward growth, with the two ways of rounding up written as one. -/
theorem grow_stack_down (m : machine_t) (a : Nat) (h1 : ¬ a < m.stack_top)
    (h2 : m.stack_bot < a) :
    grow_stack a m =
      { m with
        stack := memcpy
          (memset (malloc (sub64 ((a + (8 - a % 8)) % U64) m.stack_top))
            (sub64 m.stack_bot m.stack_top) 0
            (sub64 ((a + (8 - a % 8)) % U64) m.stack_bot))
          0 m.stack (sub64 m.stack_bot m.stack_top)
        stack_bot := sub64 ((a + (8 - a % 8)) % U64) 1 } := by
  have hnew : (if a % WORD_SIZE_BYTES ≠ 0
      then (a + (WORD_SIZE_BYTES - a % WORD_SIZE_BYTES)) % U64
      else (a + WORD_SIZE_BYTES) % U64) = (a + (8 - a % 8)) % U64 := by
    simp only [WORD_SIZE_BYTES]
    split_ifs with h
    · rfl
    · have h0 : a % 8 = 0 := by omega
      rw [h0]
  unfold grow_stack
  rw [if_neg h1, if_pos h2]
  simp only [hnew]

/-- Downward growth lies inside its blocks when the grown range has fewer
than `2 ^ 64` bytes and the old block holds the bytes that are copied. -/
theorem grow_stack_in_block_down (m : machine_t) (a : Nat) (h1 : ¬ a < m.stack_top)
    (h2 : m.stack_bot < a) (hrange : m.stack_top ≤ m.stack_bot) (ha : a < 2 ^ 64)
    (hlen : m.stack_bot - m.stack_top ≤ m.stack.length)
    (hfit : sub64 ((a + (8 - a % 8)) % U64) 1 - m.stack_top + 1 < 2 ^ 64) :
    grow_stack_in_block a m = true := by
  have hnew : (if a % WORD_SIZE_BYTES ≠ 0
      then (a + (WORD_SIZE_BYTES - a % WORD_SIZE_BYTES)) % U64
      else (a + WORD_SIZE_BYTES) % U64) = (a + (8 - a % 8)) % U64 := by
    simp only [WORD_SIZE_BYTES]
    split_ifs with h
    · rfl
    · have h0 : a % 8 = 0 := by omega
      rw [h0]
  unfold grow_stack_in_block
  rw [if_neg h1, if_pos h2]
  simp only [hnew, in_block, length_malloc, Bool.and_eq_true, decide_eq_true_eq, sub64, U64]
    at hfit ⊢
  omega

/-- At the one-word stack that holds the last 8 addresses, growth to address 0
asks `malloc` for 0 bytes and then sets 8 bytes, outside the fresh block. -/
theorem grow_stack_last_word_overruns :
    stack_inv last_word_machine ∧
      (sub64 last_word_machine.stack_bot 0 + 1) % U64 = 0 ∧
      sub64 last_word_machine.stack_top 0 = 2 ^ 64 - 8 ∧
      grow_stack_in_block 0 last_word_machine = false := by
  refine ⟨?_, by decide, by decide, by decide⟩
  simp only [stack_inv, last_word_machine]
  decide

/-- What `str x<r>, [sp]` does to a machine whose `sp` is a 64-bit value, when
both of its writes lie inside the stack block. -/
theorem execute_str_x_sp (g : machine_t) (r : Fin 31) (unused : operand_t)
    (hsp : g.sp < 2 ^ 64)
    (h1 : 4 * ((sub64 g.sp g.stack_top / 4) % U32) + 4 ≤ g.stack.length)
    (h2 : 8 ≤ g.stack.length) :
    execute ⟨OPERATION_str, ![reg_x r, mem_sp, unused]⟩ g =
      some { g with
        stack := store_bytes
          (store_bytes g.stack (4 * ((sub64 g.sp g.stack_top / 4) % U32))
            (le_bytes 4 (g.registers r % U32)))
          0 (le_bytes 8 (g.registers r)) } := by
  have h0 : 8 * (sub64 g.sp g.sp / 8) = 0 := by
    simp only [sub64, U64]; omega
  have h3 : g.sp % U64 = g.sp := by
    simp only [U64]; omega
  simp [execute, execute_MSL, get_memory_address, get_value, look_thru_registers, reg_x,
    mem_sp, h0, h3, in_block, h1, h2, length_store_bytes]

/-- The instruction `str x<r>, [sp]` has no result when its 32-bit write does
not lie inside the stack block. -/
theorem execute_str_x_sp_outside (g : machine_t) (r : Fin 31) (unused : operand_t)
    (hsp : g.sp < 2 ^ 64)
    (h1 : g.stack.length < 4 * ((sub64 g.sp g.stack_top / 4) % U32) + 4) :
    execute ⟨OPERATION_str, ![reg_x r, mem_sp, unused]⟩ g = none := by
  have h3 : g.sp % U64 = g.sp := by
    simp only [U64]; omega
  simp [execute, execute_MSL, get_memory_address, get_value, look_thru_registers, reg_x,
    mem_sp, h3, in_block, h1]

/-- A `str` that has a result leaves `sp` and the bounds of the stack as they
were: `execute_MSL` never calls `grow_stack`. -/
theorem execute_str_bounds (m m1 : machine_t) (ins : instruction_t)
    (hop : ins.operation = OPERATION_str) (h : execute ins m = some m1) :
    m1.sp = m.sp ∧ m1.stack_top = m.stack_top ∧ m1.stack_bot = m.stack_bot := by
  simp only [execute, hop, execute_MSL] at h
  cases hea : get_memory_address m (ins.operands 1) with
  | none => simp [hea] at h
  | some ea =>
    cases hst : get_value m (ins.operands 0) with
    | none => simp [hea, hst] at h
    | some store =>
      have hgv : ∀ s : List Nat,
          get_value { m with stack := s } (ins.operands 0) = get_value m (ins.operands 0) :=
        fun _ => rfl
      simp only [hea, hst, hgv, Option.bind_eq_bind, Option.some_bind, ne_eq, reduceCtorEq,
        not_false_eq_true, if_true] at h
      split_ifs at h
      all_goals (cases h; exact ⟨rfl, rfl, rfl⟩)

/-! ## Counting leading bits -/

theorem size_half (n : Nat) (h : n ≠ 0) : Nat.size n = Nat.size (n / 2) + 1 := by
  apply Nat.le_antisymm
  · rw [Nat.size_le, pow_succ]
    have := Nat.lt_size_self (n / 2)
    omega
  · rw [Nat.succ_le_iff, Nat.lt_size]
    rcases Nat.eq_zero_or_pos (Nat.size (n / 2)) with h0 | hpos
    · rw [h0]
      simp only [pow_zero]
      omega
    · obtain ⟨t, ht⟩ : ∃ t, Nat.size (n / 2) = t + 1 := ⟨Nat.size (n / 2) - 1, by omega⟩
      have h2 : 2 ^ t ≤ n / 2 := Nat.lt_size.mp (by omega)
      rw [ht, pow_succ]
      omega

theorem count_shifts_eq (n : Nat) : ∀ ct : Int, count_shifts n ct = ct + Nat.size n := by
  induction n using Nat.strong_induction_on with
  | _ n ih =>
    intro ct
    rw [count_shifts]
    split_ifs with h
    · rw [ih (n / 2) (Nat.div_lt_self (Nat.pos_of_ne_zero h) (by decide)), size_half n h]
      push_cast
      ring
    · have h0 : n = 0 := by omega
      subst h0
      simp

theorem count_leading_zeros64_eq (n : Nat) :
    count_leading_zeros64 n = 64 - (Nat.size n : Int) := by
  unfold count_leading_zeros64
  split_ifs with h
  · subst h; simp
  · rw [count_shifts_eq]; simp

theorem count_leading_zeros32_eq (n : Nat) :
    count_leading_zeros32 n = 32 - (Nat.size n : Int) := by
  unfold count_leading_zeros32
  split_ifs with h
  · subst h; simp
  · rw [count_shifts_eq]; simp

theorem to_u64_natCast (k : Nat) (h : k < 2 ^ 64) : to_u64 (k : Int) = k := by
  unfold to_u64
  simp only [U64]
  push_cast
  omega

/-- The position of the leading one: the characterisation of `W - size n`. -/
theorem leading_zeros_spec (W n : Nat) (hn : n < 2 ^ W) (h0 : n ≠ 0) :
    W - Nat.size n ≤ W - 1 ∧ 2 ^ (W - 1 - (W - Nat.size n)) ≤ n ∧
      n < 2 ^ (W - (W - Nat.size n)) ∧
      ∀ j, j ≤ W - 1 → 2 ^ (W - 1 - j) ≤ n → n < 2 ^ (W - j) → j = W - Nat.size n := by
  have hs1 : 0 < Nat.size n := Nat.size_pos.mpr (Nat.pos_of_ne_zero h0)
  have hs2 : Nat.size n ≤ W := Nat.size_le.mpr hn
  refine ⟨by omega, ?_, ?_, ?_⟩
  · have : W - 1 - (W - Nat.size n) < Nat.size n := by omega
    exact Nat.lt_size.mp this
  · have : W - (W - Nat.size n) = Nat.size n := by omega
    rw [this]
    exact Nat.lt_size_self n
  · intro j hj h1 h2
    have a1 : W - 1 - j < Nat.size n := Nat.lt_size.mpr h1
    have a2 : Nat.size n ≤ W - j := Nat.size_le.mpr h2
    omega

theorem testBit_leading (v i : Nat) (h1 : 2 ^ i ≤ v) (h2 : v < 2 ^ (i + 1)) :
    v.testBit i = true := by
  by_contra hne
  have hf : v.testBit i = false := by simpa using hne
  have : v < 2 ^ i := by
    apply Nat.lt_pow_two_of_testBit
    intro j hj
    rcases Nat.eq_or_lt_of_le hj with h | h
    · rw [← h]; exact hf
    · apply Nat.testBit_lt_two_pow
      exact Nat.lt_of_lt_of_le h2 (Nat.pow_le_pow_right (by decide) h)
  omega

theorem testBit_above_size (u j : Nat) (h : Nat.size u ≤ j) : u.testBit j = false :=
  Nat.testBit_lt_two_pow
    (Nat.lt_of_lt_of_le (Nat.lt_size_self u) (Nat.pow_le_pow_right (by decide) h))

theorem testBit_size_pred (u : Nat) (h : 0 < Nat.size u) :
    u.testBit (Nat.size u - 1) = true := by
  apply testBit_leading
  · exact Nat.lt_size.mp (by omega)
  · have : Nat.size u - 1 + 1 = Nat.size u := by omega
    rw [this]
    exact Nat.lt_size_self u

/-- The run of sign bits of a `W + 1`-bit value `v`, read off the size of `v`
after the complement that `cls` takes when the sign bit is set. -/
theorem sign_run (W v : Nat) (hv : v < 2 ^ (W + 1)) :
    Nat.size (if v / 2 ^ W % 2 ≠ 0 then 2 ^ (W + 1) - 1 - v else v) ≤ W ∧
      (∀ j, Nat.size (if v / 2 ^ W % 2 ≠ 0 then 2 ^ (W + 1) - 1 - v else v) ≤ j → j < W →
        v.testBit j = v.testBit W) ∧
      (0 < Nat.size (if v / 2 ^ W % 2 ≠ 0 then 2 ^ (W + 1) - 1 - v else v) →
        v.testBit (Nat.size (if v / 2 ^ W % 2 ≠ 0 then 2 ^ (W + 1) - 1 - v else v) - 1)
          ≠ v.testBit W) := by
  have hpow : 2 ^ (W + 1) = 2 * 2 ^ W := by rw [pow_succ]; ring
  have hpos : 0 < 2 ^ W := Nat.pow_pos (by decide)
  by_cases hlead : v / 2 ^ W % 2 ≠ 0
  · rw [if_pos hlead]
    have hge : 2 ^ W ≤ v := by
      by_contra hlt
      rw [Nat.div_eq_of_lt (by omega)] at hlead
      exact hlead rfl
    have htop : v.testBit W = true := testBit_leading v W hge hv
    have hc : 2 ^ (W + 1) - 1 - v = 2 ^ (W + 1) - (v + 1) := by omega
    have hbit : ∀ j, j < W + 1 →
        (2 ^ (W + 1) - 1 - v).testBit j = !v.testBit j := by
      intro j hj
      rw [hc, Nat.testBit_two_pow_sub_succ hv]
      simp [hj]
    have hsz : Nat.size (2 ^ (W + 1) - 1 - v) ≤ W := Nat.size_le.mpr (by omega)
    refine ⟨hsz, ?_, ?_⟩
    · intro j h1 h2
      have := testBit_above_size _ j h1
      rw [hbit j (by omega)] at this
      rw [htop]
      simpa using this
    · intro h0
      have := testBit_size_pred _ h0
      rw [hbit _ (by omega)] at this
      rw [htop]
      simpa using this
  · rw [if_neg hlead]
    have hlt : v < 2 ^ W := by
      by_contra hge
      have h1 : v / 2 ^ W = 1 := by
        apply Nat.div_eq_of_lt_le <;> omega
      rw [h1] at hlead
      exact hlead (by decide)
    have htop : v.testBit W = false := Nat.testBit_lt_two_pow hlt
    refine ⟨Nat.size_le.mpr hlt, ?_, ?_⟩
    · intro j h1 _
      rw [htop]
      exact testBit_above_size v j h1
    · intro h0
      rw [htop, testBit_size_pred v h0]
      decide

theorem get_value_x (m : machine_t) (o : operand_t) (h1 : o.type = OPERAND_register)
    (h2 : o.reg_type = REGISTER_x) : get_value m o = some (m.registers o.reg_num) := by
  simp [get_value, h1, look_thru_registers, h2]

theorem get_value_w (m : machine_t) (o : operand_t) (h1 : o.type = OPERAND_register)
    (h2 : o.reg_type = REGISTER_w) :
    get_value m o = some (m.registers o.reg_num % 2 ^ 32) := by
  simp only [get_value, h1, look_thru_registers, h2, U64]
  simp only [or_true, if_true, reduceCtorEq, or_self, if_false, Option.some.injEq]
  omega

theorem execute_cls_x (m : machine_t) (ins : instruction_t)
    (hop : ins.operation = OPERATION_cls)
    (hsrc : (ins.operands 1).type = OPERAND_register)
    (hx : (ins.operands 1).reg_type = REGISTER_x) :
    execute ins m = put_value (ins.operands 0)
      (to_u64 (count_leading_zeros64
        (if m.registers (ins.operands 1).reg_num / 2 ^ 63 % 2 ≠ 0
          then 2 ^ 64 - 1 - m.registers (ins.operands 1).reg_num
          else m.registers (ins.operands 1).reg_num) - 1)) m := by
  simp [execute, hop, execute_count_lead, hx, get_value_x m _ hsrc hx, U64]

theorem execute_cls_w (m : machine_t) (ins : instruction_t)
    (hop : ins.operation = OPERATION_cls)
    (hsrc : (ins.operands 1).type = OPERAND_register)
    (hw : (ins.operands 1).reg_type = REGISTER_w) :
    execute ins m = put_value (ins.operands 0)
      (to_u64 (count_leading_zeros32
        (if m.registers (ins.operands 1).reg_num % 2 ^ 32 / 2 ^ 31 % 2 ≠ 0
          then 2 ^ 32 - 1 - m.registers (ins.operands 1).reg_num % 2 ^ 32
          else m.registers (ins.operands 1).reg_num % 2 ^ 32) - 1)) m := by
  simp [execute, hop, execute_count_lead, hw, get_value_w m _ hsrc hw, U32]

theorem execute_clz_x (m : machine_t) (ins : instruction_t)
    (hop : ins.operation = OPERATION_clz)
    (hsrc : (ins.operands 1).type = OPERAND_register)
    (hx : (ins.operands 1).reg_type = REGISTER_x) :
    execute ins m = put_value (ins.operands 0)
      (to_u64 (count_leading_zeros64 (m.registers (ins.operands 1).reg_num))) m := by
  simp [execute, hop, execute_count_lead, hx, get_value_x m _ hsrc hx, U64]

theorem execute_clz_w (m : machine_t) (ins : instruction_t)
    (hop : ins.operation = OPERATION_clz)
    (hsrc : (ins.operands 1).type = OPERAND_register)
    (hw : (ins.operands 1).reg_type = REGISTER_w) :
    execute ins m = put_value (ins.operands 0)
      (to_u64 (count_leading_zeros32 (m.registers (ins.operands 1).reg_num % 2 ^ 32))) m := by
  simp [execute, hop, execute_count_lead, hw, get_value_w m _ hsrc hw, U32]

/-- From a run of sign bits that ends in a differing bit to the largest run. -/
theorem sign_run_largest (W v s : Nat) (hs : s ≤ W)
    (hdiff : 0 < s → v.testBit (s - 1) ≠ v.testBit W) (k : Nat) (hk : k ≤ W)
    (hrun : ∀ j, W - k ≤ j → j < W → v.testBit j = v.testBit W) : k ≤ W - s := by
  by_contra hlt
  exact hdiff (by omega) (hrun (s - 1) (by omega) (by omega))

/-! ## Compare -/

/-- C1, at the failing input `cmp #1, #2`: from every state the compare ends
with the positive flag set, not the negative one, although `1 < 2`. -/
theorem cmp_one_two_sets_positive (m : machine_t) :
    execute ⟨OPERATION_cmp, ![imm 1, imm 2, no_operand]⟩ m
        = some { m with conditions := CONDITION_POSITIVE } ∧
      CONDITION_POSITIVE ≠ CONDITION_NEGATIVE := by
  refine ⟨?_, by decide⟩
  simp [execute, execute_compare, get_value, imm, sub64]

/-! ## Store and load -/

/-- C2, at a failing input: the stack is at 4096..4111 with a block of 16
bytes, `sp = 4104` is 8-byte-aligned and inside it, and
`x1 = 0x1122334455667788`.  The pair `str x1, [sp]`, `ldr x2, [sp]` leaves
`x2 = 0x55667788`; the 8 bytes at `sp` hold only the low half of `x1`, and the
full value has been written to the word at `stack_top` instead. -/
theorem str_ldr_loses_high_half :
    stack_inv (two_word_machine 0x1122334455667788) ∧
      (two_word_machine 0x1122334455667788).sp % 8 = 0 ∧
      (two_word_machine 0x1122334455667788).stack_top
        ≤ (two_word_machine 0x1122334455667788).sp ∧
      (two_word_machine 0x1122334455667788).sp + 7
        ≤ (two_word_machine 0x1122334455667788).stack_bot ∧
      ((execute ⟨OPERATION_str, ![reg_x 1, mem_sp, no_operand]⟩
            (two_word_machine 0x1122334455667788)).bind
          (execute ⟨OPERATION_ldr, ![reg_x 2, mem_sp, no_operand]⟩)).map
          (fun m => (m.registers 2, m.stack))
        = some (0x55667788,
            [0x88, 0x77, 0x66, 0x55, 0x44, 0x33, 0x22, 0x11,
             0x88, 0x77, 0x66, 0x55, 0, 0, 0, 0]) := by
  refine ⟨?_, by decide, by decide, by decide, by decide⟩
  simp only [stack_inv, two_word_machine, List.length_replicate]
  decide

/-- C6 as stated fails in the state with the one-word stack at 4096..4103 and
`sp = 4096 - 512`: the state satisfies the invariant, the stack is not grown,
the 32-bit write of `str x1, [sp]` goes to byte offset 17179868672 of the
8-byte block, which is not inside it, and the store has no result. -/
theorem str_below_stack_outside_block :
    stack_inv low_sp_machine ∧ 512 ≤ low_sp_machine.stack_top ∧
      low_sp_machine.sp = low_sp_machine.stack_top - 512 ∧
      low_sp_machine.stack.length = 8 ∧
      get_memory_address low_sp_machine mem_sp = some 3584 ∧
      4 * ((sub64 3584 low_sp_machine.stack_top / 4) % U32) = 17179868672 ∧
      in_block low_sp_machine.stack 17179868672 4 = false ∧
      execute ⟨OPERATION_str, ![reg_x 1, mem_sp, no_operand]⟩ low_sp_machine = none := by
  refine ⟨?_, by decide, by decide, by decide, by decide, by decide, by decide, ?_⟩
  · simp only [stack_inv, low_sp_machine, one_word_machine]
    decide
  · exact execute_str_x_sp_outside low_sp_machine 1 no_operand (by decide) (by decide)

/-- C6, amended: `str` does not grow the stack: when it has a result the
bounds are as before, and with `sp = stack_top - 512` it has none unless the
block has at least `2 ^ 34 - 508` bytes.  Once the caller has grown the stack
with `grow_stack sp` (the grown range having fewer than `2 ^ 64` bytes), the
growth lies inside its blocks, `stack_top = sp <= stack_bot`, and
`str x1, [sp]` then leaves the 8 bytes at address `sp` holding the value of
`x1` and every byte of the old range `[stack_top, stack_bot]` with its prior
value. -/
theorem str_after_grow_below (m : machine_t) (unused : operand_t)
    (hinv : stack_inv m) (hbot : m.stack_bot < 2 ^ 64) (htop : 512 ≤ m.stack_top)
    (hsp : m.sp = m.stack_top - 512) (hv : m.registers 1 < 2 ^ 64)
    (hfit : m.stack_bot - m.sp + 1 < 2 ^ 64) :
    (∀ m1, execute ⟨OPERATION_str, ![reg_x 1, mem_sp, unused]⟩ m = some m1 →
        m1.stack_top = m.stack_top ∧ m1.stack_bot = m.stack_bot) ∧
      (m.stack.length < 2 ^ 34 - 508 →
        execute ⟨OPERATION_str, ![reg_x 1, mem_sp, unused]⟩ m = none) ∧
      grow_stack_in_block m.sp m = true ∧
      (grow_stack m.sp m).stack_top = m.sp ∧
      (grow_stack m.sp m).stack_bot = m.stack_bot ∧ m.sp ≤ m.stack_bot ∧
      ∃ m2, execute ⟨OPERATION_str, ![reg_x 1, mem_sp, unused]⟩ (grow_stack m.sp m)
          = some m2 ∧
        m2.stack_top = m.sp ∧ m2.stack_bot = m.stack_bot ∧
        load_bytes m2.stack (m.sp - m2.stack_top) 8 = le_bytes 8 (m.registers 1) ∧
        le_value (load_bytes m2.stack (m.sp - m2.stack_top) 8) = m.registers 1 ∧
        ∀ x, m.stack_top ≤ x → x ≤ m.stack_bot →
          m2.stack[x - m2.stack_top]? = m.stack[x - m.stack_top]? := by
  obtain ⟨h1, h2, h3, h4⟩ := hinv
  have hlt : m.sp < m.stack_top := by omega
  have hsp64 : m.sp < 2 ^ 64 := by omega
  have hal : m.sp - m.sp % 8 = m.sp := by omega
  have hg := grow_stack_up m m.sp hlt h3 hbot
  rw [hal] at hg
  have hgin : grow_stack_in_block m.sp m = true := by
    rw [grow_stack_in_block_up m m.sp hlt h3 hbot, hal]
    omega
  have hgtop : (grow_stack m.sp m).stack_top = m.sp := by rw [hg]
  have hgbot : (grow_stack m.sp m).stack_bot = m.stack_bot := by rw [hg]
  have hgsp : (grow_stack m.sp m).sp = m.sp := by rw [hg]
  have hgreg : (grow_stack m.sp m).registers = m.registers := by rw [hg]
  have hglen : (grow_stack m.sp m).stack.length = m.stack_bot - m.sp + 1 := by
    rw [hg]
    simp only [length_memcpy, length_memset, length_malloc, U64]
    omega
  have hoff : 4 * ((sub64 (grow_stack m.sp m).sp (grow_stack m.sp m).stack_top / 4) % U32)
      = 0 := by
    rw [hgsp, hgtop]
    simp only [sub64, U64, U32]
    omega
  have e2 := execute_str_x_sp (grow_stack m.sp m) 1 unused (by rw [hgsp]; exact hsp64)
    (by rw [hoff, hglen]; omega) (by rw [hglen]; omega)
  rw [hoff, hgreg] at e2
  refine ⟨?_, ?_, hgin, hgtop, hgbot, by omega, _, e2, hgtop, hgbot, ?_⟩
  · intro m1 hm1
    exact (execute_str_bounds m m1 _ rfl hm1).2
  · intro hshort
    apply execute_str_x_sp_outside m 1 unused hsp64
    have : 4 * ((sub64 m.sp m.stack_top / 4) % U32) = 2 ^ 34 - 512 := by
      simp only [sub64, U64, U32]
      omega
    rw [this]
    omega
  simp only [hgtop, Nat.sub_self]
  have hload : load_bytes
      (store_bytes (store_bytes (grow_stack m.sp m).stack 0 (le_bytes 4 (m.registers 1 % U32)))
        0 (le_bytes 8 (m.registers 1))) 0 8 = le_bytes 8 (m.registers 1) := by
    have := load_bytes_store_bytes
      (store_bytes (grow_stack m.sp m).stack 0 (le_bytes 4 (m.registers 1 % U32)))
      (le_bytes 8 (m.registers 1)) 0
      (by rw [length_store_bytes, length_le_bytes, hglen]; omega)
    rwa [length_le_bytes] at this
  refine ⟨hload, ?_, ?_⟩
  · rw [hload, le_value_le_bytes]
    exact Nat.mod_eq_of_lt (by norm_num; omega)
  · intro x hx1 hx2
    rw [getElem?_store_bytes, if_neg (by rw [length_le_bytes]; omega),
      getElem?_store_bytes, if_neg (by rw [length_le_bytes]; omega)]
    have := grow_stack_up_preserves m m.sp x hlt h3 hbot h4 (by omega) hx1 hx2
    rwa [hgtop] at this

/-- Witness of the amended C6: the one-word stack at 4096 with `sp = 3584`. -/
theorem str_after_grow_below_witness :
    (∀ m1, execute ⟨OPERATION_str, ![reg_x 1, mem_sp, no_operand]⟩ low_sp_machine = some m1 →
        m1.stack_top = low_sp_machine.stack_top ∧
        m1.stack_bot = low_sp_machine.stack_bot) ∧
      (low_sp_machine.stack.length < 2 ^ 34 - 508 →
        execute ⟨OPERATION_str, ![reg_x 1, mem_sp, no_operand]⟩ low_sp_machine = none) ∧
      grow_stack_in_block low_sp_machine.sp low_sp_machine = true ∧
      (grow_stack low_sp_machine.sp low_sp_machine).stack_top = low_sp_machine.sp ∧
      (grow_stack low_sp_machine.sp low_sp_machine).stack_bot = low_sp_machine.stack_bot ∧
      low_sp_machine.sp ≤ low_sp_machine.stack_bot ∧
      ∃ m2, execute ⟨OPERATION_str, ![reg_x 1, mem_sp, no_operand]⟩
            (grow_stack low_sp_machine.sp low_sp_machine) = some m2 ∧
        m2.stack_top = low_sp_machine.sp ∧ m2.stack_bot = low_sp_machine.stack_bot ∧
        load_bytes m2.stack (low_sp_machine.sp - m2.stack_top) 8
          = le_bytes 8 (low_sp_machine.registers 1) ∧
        le_value (load_bytes m2.stack (low_sp_machine.sp - m2.stack_top) 8)
          = low_sp_machine.registers 1 ∧
        ∀ x, low_sp_machine.stack_top ≤ x → x ≤ low_sp_machine.stack_bot →
          m2.stack[x - m2.stack_top]? = low_sp_machine.stack[x - low_sp_machine.stack_top]? :=
  str_after_grow_below low_sp_machine no_operand
    (by simp [stack_inv, low_sp_machine, one_word_machine]) (by decide) (by decide)
    (by decide) (by decide) (by decide)

/-! ## Growth of the stack -/

/-- C3, at a failing input: with the stack at 4096..4103 holding the bytes 1
to 8, `grow_stack 4104` grows downward, moves `stack_bot` to 4111, and the
byte at the old `stack_bot`, which was 8, is 0 afterwards. -/
theorem grow_stack_down_loses_last_byte :
    stack_inv (one_word_machine 4096 0) ∧
      (one_word_machine 4096 0).stack[4103 - 4096]? = some 8 ∧
      (grow_stack 4104 (one_word_machine 4096 0)).stack_top = 4096 ∧
      (grow_stack 4104 (one_word_machine 4096 0)).stack_bot = 4111 ∧
      (grow_stack 4104 (one_word_machine 4096 0)).stack[4103 - 4096]? = some 0 ∧
      (grow_stack 4104 (one_word_machine 4096 0)).stack
        = [1, 2, 3, 4, 5, 6, 7, 0, 0, 0, 0, 0, 0, 0, 0, 0] := by
  refine ⟨?_, by decide, by decide, by decide, by decide, by decide⟩
  simp only [stack_inv, one_word_machine]
  decide

/-- C7: `put_value` on `w<i>` leaves register `i` equal to `v mod 2 ^ 32`,
`put_value` on `x<i>` leaves it equal to `v`, and both change no other
register, nor `sp`, `pc`, the flags or the stack. -/
theorem put_value_widths (m : machine_t) (i : Fin 31) (v c : Nat) :
    (∃ m1, put_value ⟨OPERAND_register, REGISTER_w, i, c⟩ v m = some m1 ∧
        m1.registers i = v % 2 ^ 32 ∧ (∀ j, j ≠ i → m1.registers j = m.registers j) ∧
        m1.sp = m.sp ∧ m1.pc = m.pc ∧ m1.conditions = m.conditions ∧
        m1.stack = m.stack ∧ m1.stack_top = m.stack_top ∧
        m1.stack_bot = m.stack_bot) ∧
      (∃ m2, put_value ⟨OPERAND_register, REGISTER_x, i, c⟩ v m = some m2 ∧
        m2.registers i = v ∧ (∀ j, j ≠ i → m2.registers j = m.registers j) ∧
        m2.sp = m.sp ∧ m2.pc = m.pc ∧ m2.conditions = m.conditions ∧
        m2.stack = m.stack ∧ m2.stack_top = m.stack_top ∧
        m2.stack_bot = m.stack_bot) := by
  constructor
  · refine ⟨{ m with
        registers := Function.update m.registers i (v * 2 ^ 32 % U64 / 2 ^ 32) },
      by simp [put_value], ?_, ?_, rfl, rfl, rfl, rfl, rfl, rfl⟩
    · simp only [Function.update_same, U64]
      omega
    · intro j hj
      simp [Function.update_noteq hj]
  · refine ⟨{ m with registers := Function.update m.registers i v },
      by simp [put_value], ?_, ?_, rfl, rfl, rfl, rfl, rfl, rfl⟩
    · simp
    · intro j hj
      simp [Function.update_noteq hj]

/-! ## Call and return -/

/-- C8: `bl target` with a readable target of value `t` leaves register 30
equal to `(pc + 4) mod 2 ^ 64` and `pc = t`, the value read before register 30
was written; a `ret` right after it leaves `pc = (p + 4) mod 2 ^ 64`, where `p`
is the `pc` before the `bl`. -/
theorem bl_then_ret (m : machine_t) (call ret : instruction_t)
    (hcall : call.operation = OPERATION_bl) (hret : ret.operation = OPERATION_ret)
    (hread : (call.operands 0).type = OPERAND_constant ∨
      (call.operands 0).type = OPERAND_address ∨
      (call.operands 0).type = OPERAND_register) :
    ∃ t m1 m2, get_value m (call.operands 0) = some t ∧
      execute call m = some m1 ∧ m1.registers 30 = (m.pc + 4) % 2 ^ 64 ∧ m1.pc = t ∧
      execute ret m1 = some m2 ∧ m2.pc = (m.pc + 4) % 2 ^ 64 := by
  obtain ⟨t, ht⟩ : ∃ t, get_value m (call.operands 0) = some t := by
    unfold get_value
    rw [if_pos hread]
    split_ifs <;> exact ⟨_, rfl⟩
  refine ⟨t, { m with
      registers := Function.update m.registers 30 ((m.pc + 4) % U64), pc := t },
    { m with
      registers := Function.update m.registers 30 ((m.pc + 4) % U64),
      pc := (m.pc + 4) % U64 }, ht, ?_, ?_, rfl, ?_, rfl⟩
  · simp only [execute, hcall, execute_basic_branch, ht]
    rfl
  · simp [U64]
  · simp [execute, hret, execute_return]

/-- Witness of C8: `bl x30` with `x30 = 64` and `pc = 2 ^ 64 - 4`. -/
theorem bl_then_ret_witness :
    ∃ t m1 m2,
      get_value { one_word_machine 4096 0 with
          registers := fun _ => 64, pc := 2 ^ 64 - 4 } (reg_x 30) = some t ∧
      execute ⟨OPERATION_bl, ![reg_x 30, no_operand, no_operand]⟩
          { one_word_machine 4096 0 with
            registers := fun _ => 64, pc := 2 ^ 64 - 4 } = some m1 ∧
      m1.registers 30 = (2 ^ 64 - 4 + 4) % 2 ^ 64 ∧ m1.pc = t ∧
      execute ⟨OPERATION_ret, ![no_operand, no_operand, no_operand]⟩ m1 = some m2 ∧
      m2.pc = (2 ^ 64 - 4 + 4) % 2 ^ 64 :=
  bl_then_ret { one_word_machine 4096 0 with registers := fun _ => 64, pc := 2 ^ 64 - 4 }
    ⟨OPERATION_bl, ![reg_x 30, no_operand, no_operand]⟩
    ⟨OPERATION_ret, ![no_operand, no_operand, no_operand]⟩ rfl rfl
    (Or.inr (Or.inr rfl))

/-! ## Leading zeros and sign bits -/

/-- C9: `count_leading_zeros64` returns 64 at 0 and otherwise the only `k` in
0..63 with `2 ^ (63 - k) <= n < 2 ^ (64 - k)`; `count_leading_zeros32` does
the same on 32 bits; and `clz` with an x-register (a w-register) source writes
the 64-bit count of the register (the 32-bit count of its low 32 bits) to
operand 0. -/
theorem clz_counts_leading_zeros (n : Nat) (hn : n < 2 ^ 64) (w : Nat) (hw : w < 2 ^ 32)
    (m : machine_t) (ins : instruction_t) (hop : ins.operation = OPERATION_clz)
    (hsrc : (ins.operands 1).type = OPERAND_register)
    (hreg : m.registers (ins.operands 1).reg_num < 2 ^ 64) :
    (n = 0 → count_leading_zeros64 n = 64) ∧
      (n ≠ 0 → ∃ k : Nat, count_leading_zeros64 n = k ∧ k ≤ 63 ∧ 2 ^ (63 - k) ≤ n ∧
        n < 2 ^ (64 - k) ∧
        ∀ j, j ≤ 63 → 2 ^ (63 - j) ≤ n → n < 2 ^ (64 - j) → j = k) ∧
      (w = 0 → count_leading_zeros32 w = 32) ∧
      (w ≠ 0 → ∃ k : Nat, count_leading_zeros32 w = k ∧ k ≤ 31 ∧ 2 ^ (31 - k) ≤ w ∧
        w < 2 ^ (32 - k) ∧
        ∀ j, j ≤ 31 → 2 ^ (31 - j) ≤ w → w < 2 ^ (32 - j) → j = k) ∧
      ((ins.operands 1).reg_type = REGISTER_x →
        ∃ k : Nat, count_leading_zeros64 (m.registers (ins.operands 1).reg_num) = k ∧
          execute ins m = put_value (ins.operands 0) k m) ∧
      ((ins.operands 1).reg_type = REGISTER_w →
        ∃ k : Nat,
          count_leading_zeros32 (m.registers (ins.operands 1).reg_num % 2 ^ 32) = k ∧
          execute ins m = put_value (ins.operands 0) k m) := by
  have c64 : ∀ x, x < 2 ^ 64 →
      count_leading_zeros64 x = ((64 - Nat.size x : Nat) : Int) := by
    intro x hx
    have := Nat.size_le.mpr hx
    rw [count_leading_zeros64_eq]
    omega
  have c32 : ∀ x, x < 2 ^ 32 →
      count_leading_zeros32 x = ((32 - Nat.size x : Nat) : Int) := by
    intro x hx
    have := Nat.size_le.mpr hx
    rw [count_leading_zeros32_eq]
    omega
  refine ⟨?_, ?_, ?_, ?_, ?_, ?_⟩
  · intro h
    subst h
    rfl
  · intro h
    exact ⟨64 - Nat.size n, c64 n hn, leading_zeros_spec 64 n hn h⟩
  · intro h
    subst h
    rfl
  · intro h
    exact ⟨32 - Nat.size w, c32 w hw, leading_zeros_spec 32 w hw h⟩
  · intro hx
    refine ⟨64 - Nat.size (m.registers (ins.operands 1).reg_num), c64 _ hreg, ?_⟩
    rw [execute_clz_x m ins hop hsrc hx, c64 _ hreg, to_u64_natCast _ (by omega)]
  · intro hwr
    have hlow : m.registers (ins.operands 1).reg_num % 2 ^ 32 < 2 ^ 32 :=
      Nat.mod_lt _ (by decide)
    refine ⟨32 - Nat.size (m.registers (ins.operands 1).reg_num % 2 ^ 32), c32 _ hlow, ?_⟩
    rw [execute_clz_w m ins hop hsrc hwr, c32 _ hlow, to_u64_natCast _ (by omega)]

/-- Witness of C9: the values 1 and `clz x0, x1` with `x1 = 1`. -/
theorem clz_counts_leading_zeros_witness :
    (1 = 0 → count_leading_zeros64 1 = 64) ∧
      (1 ≠ 0 → ∃ k : Nat, count_leading_zeros64 1 = k ∧ k ≤ 63 ∧ 2 ^ (63 - k) ≤ 1 ∧
        1 < 2 ^ (64 - k) ∧
        ∀ j, j ≤ 63 → 2 ^ (63 - j) ≤ 1 → 1 < 2 ^ (64 - j) → j = k) ∧
      (1 = 0 → count_leading_zeros32 1 = 32) ∧
      (1 ≠ 0 → ∃ k : Nat, count_leading_zeros32 1 = k ∧ k ≤ 31 ∧ 2 ^ (31 - k) ≤ 1 ∧
        1 < 2 ^ (32 - k) ∧
        ∀ j, j ≤ 31 → 2 ^ (31 - j) ≤ 1 → 1 < 2 ^ (32 - j) → j = k) ∧
      ((clz_x0_x1.operands 1).reg_type = REGISTER_x →
        ∃ k : Nat,
          count_leading_zeros64 (x1_one_machine.registers (clz_x0_x1.operands 1).reg_num)
            = k ∧
          execute clz_x0_x1 x1_one_machine
            = put_value (clz_x0_x1.operands 0) k x1_one_machine) ∧
      ((clz_x0_x1.operands 1).reg_type = REGISTER_w →
        ∃ k : Nat,
          count_leading_zeros32
              (x1_one_machine.registers (clz_x0_x1.operands 1).reg_num % 2 ^ 32) = k ∧
          execute clz_x0_x1 x1_one_machine
            = put_value (clz_x0_x1.operands 0) k x1_one_machine) :=
  clz_counts_leading_zeros 1 (by decide) 1 (by decide) x1_one_machine clz_x0_x1
    rfl rfl (by decide)

/-- C10: `cls` with an x-register source writes to operand 0 the largest `k`
in 0..63 such that the bits 62 down to `63 - k` all equal bit 63, which is 63
for zero and for all ones; with a w-register source it writes the largest `k`
in 0..31 such that the bits 30 down to `31 - k` all equal bit 31. -/
theorem cls_counts_sign_bits (m : machine_t) (ins : instruction_t)
    (hop : ins.operation = OPERATION_cls)
    (hsrc : (ins.operands 1).type = OPERAND_register)
    (hreg : m.registers (ins.operands 1).reg_num < 2 ^ 64) :
    ((ins.operands 1).reg_type = REGISTER_x →
        ∃ k : Nat, k ≤ 63 ∧ execute ins m = put_value (ins.operands 0) k m ∧
          (∀ j, 63 - k ≤ j → j < 63 →
            (m.registers (ins.operands 1).reg_num).testBit j
              = (m.registers (ins.operands 1).reg_num).testBit 63) ∧
          (∀ k2, k2 ≤ 63 →
            (∀ j, 63 - k2 ≤ j → j < 63 →
              (m.registers (ins.operands 1).reg_num).testBit j
                = (m.registers (ins.operands 1).reg_num).testBit 63) → k2 ≤ k) ∧
          (m.registers (ins.operands 1).reg_num = 0 ∨
            m.registers (ins.operands 1).reg_num = 2 ^ 64 - 1 → k = 63)) ∧
      ((ins.operands 1).reg_type = REGISTER_w →
        ∃ k : Nat, k ≤ 31 ∧ execute ins m = put_value (ins.operands 0) k m ∧
          (∀ j, 31 - k ≤ j → j < 31 →
            (m.registers (ins.operands 1).reg_num).testBit j
              = (m.registers (ins.operands 1).reg_num).testBit 31) ∧
          (∀ k2, k2 ≤ 31 →
            (∀ j, 31 - k2 ≤ j → j < 31 →
              (m.registers (ins.operands 1).reg_num).testBit j
                = (m.registers (ins.operands 1).reg_num).testBit 31) → k2 ≤ k)) := by
  constructor
  · intro hx
    generalize hv : m.registers (ins.operands 1).reg_num = v at hreg
    have hex := execute_cls_x m ins hop hsrc hx
    rw [hv] at hex
    obtain ⟨hsz, hrun, hdiff⟩ := sign_run 63 v hreg
    simp only [Nat.reduceAdd] at hsz hrun hdiff
    generalize hu : (if v / 2 ^ 63 % 2 ≠ 0 then 2 ^ 64 - 1 - v else v) = u at hex hsz hrun hdiff
    have hfound : to_u64 (count_leading_zeros64 u - 1) = 63 - Nat.size u := by
      have : count_leading_zeros64 u - 1 = ((63 - Nat.size u : Nat) : Int) := by
        rw [count_leading_zeros64_eq]
        omega
      rw [this, to_u64_natCast _ (by omega)]
    rw [hfound] at hex
    have hmax : ∀ k2, k2 ≤ 63 →
        (∀ j, 63 - k2 ≤ j → j < 63 → v.testBit j = v.testBit 63) →
        k2 ≤ 63 - Nat.size u :=
      fun k2 h1 h2 => sign_run_largest 63 v (Nat.size u) hsz hdiff k2 h1 h2
    refine ⟨63 - Nat.size u, by omega, hex, ?_, hmax, ?_⟩
    · intro j h1 h2
      exact hrun j (by omega) h2
    · intro h
      have : 63 ≤ 63 - Nat.size u := by
        apply hmax 63 (Nat.le_refl _)
        intro j _ hj
        rcases h with h | h
        · rw [h]; simp
        · rw [h, Nat.testBit_two_pow_sub_one, Nat.testBit_two_pow_sub_one]
          simp only [Nat.lt_succ_self, decide_True, decide_eq_true_eq]
          omega
      omega
  · intro hw
    have hex := execute_cls_w m ins hop hsrc hw
    have hbit : ∀ j, j ≤ 31 → (m.registers (ins.operands 1).reg_num % 2 ^ 32).testBit j
        = (m.registers (ins.operands 1).reg_num).testBit j := by
      intro j hj
      rw [Nat.testBit_mod_two_pow]
      simp only [show j < 32 by omega, decide_True, Bool.true_and]
    generalize m.registers (ins.operands 1).reg_num = r at hex hbit
    have hlow : r % 2 ^ 32 < 2 ^ 32 := Nat.mod_lt _ (by decide)
    obtain ⟨hsz, hrun, hdiff⟩ := sign_run 31 (r % 2 ^ 32) hlow
    simp only [Nat.reduceAdd] at hsz hrun hdiff
    generalize hu : (if r % 2 ^ 32 / 2 ^ 31 % 2 ≠ 0 then 2 ^ 32 - 1 - r % 2 ^ 32
      else r % 2 ^ 32) = u at hex hsz hrun hdiff
    have hfound : to_u64 (count_leading_zeros32 u - 1) = 31 - Nat.size u := by
      have : count_leading_zeros32 u - 1 = ((31 - Nat.size u : Nat) : Int) := by
        rw [count_leading_zeros32_eq]
        omega
      rw [this, to_u64_natCast _ (by omega)]
    rw [hfound] at hex
    refine ⟨31 - Nat.size u, by omega, hex, ?_, ?_⟩
    · intro j h1 h2
      rw [← hbit j (by omega), ← hbit 31 (Nat.le_refl _)]
      exact hrun j (by omega) h2
    · intro k2 h1 h2
      apply sign_run_largest 31 (r % 2 ^ 32) (Nat.size u) hsz hdiff k2 h1
      intro j hj1 hj2
      rw [hbit j (by omega), hbit 31 (Nat.le_refl _)]
      exact h2 j hj1 hj2

/-- Witness of C10: `cls x0, x1` with `x1` all ones. -/
theorem cls_counts_sign_bits_witness :
    ((cls_x0_x1.operands 1).reg_type = REGISTER_x →
        ∃ k : Nat, k ≤ 63 ∧
          execute cls_x0_x1 x1_ones_machine
            = put_value (cls_x0_x1.operands 0) k x1_ones_machine ∧
          (∀ j, 63 - k ≤ j → j < 63 →
            (x1_ones_machine.registers (cls_x0_x1.operands 1).reg_num).testBit j
              = (x1_ones_machine.registers (cls_x0_x1.operands 1).reg_num).testBit 63) ∧
          (∀ k2, k2 ≤ 63 →
            (∀ j, 63 - k2 ≤ j → j < 63 →
              (x1_ones_machine.registers (cls_x0_x1.operands 1).reg_num).testBit j
                = (x1_ones_machine.registers (cls_x0_x1.operands 1).reg_num).testBit 63) →
            k2 ≤ k) ∧
          (x1_ones_machine.registers (cls_x0_x1.operands 1).reg_num = 0 ∨
            x1_ones_machine.registers (cls_x0_x1.operands 1).reg_num = 2 ^ 64 - 1 → k = 63)) ∧
      ((cls_x0_x1.operands 1).reg_type = REGISTER_w →
        ∃ k : Nat, k ≤ 31 ∧
          execute cls_x0_x1 x1_ones_machine
            = put_value (cls_x0_x1.operands 0) k x1_ones_machine ∧
          (∀ j, 31 - k ≤ j → j < 31 →
            (x1_ones_machine.registers (cls_x0_x1.operands 1).reg_num).testBit j
              = (x1_ones_machine.registers (cls_x0_x1.operands 1).reg_num).testBit 31) ∧
          (∀ k2, k2 ≤ 31 →
            (∀ j, 31 - k2 ≤ j → j < 31 →
              (x1_ones_machine.registers (cls_x0_x1.operands 1).reg_num).testBit j
                = (x1_ones_machine.registers (cls_x0_x1.operands 1).reg_num).testBit 31) →
            k2 ≤ k)) :=
  cls_counts_sign_bits x1_ones_machine cls_x0_x1 rfl rfl (by decide)

/-- A readable operand has a value. -/
theorem get_value_readable (m : machine_t) (o : operand_t)
    (h : o.type = OPERAND_constant ∨ o.type = OPERAND_address ∨ o.type = OPERAND_register) :
    ∃ t, get_value m o = some t := by
  unfold get_value
  rw [if_pos h]
  split_ifs <;> exact ⟨_, rfl⟩

/-! ## Conditional branches -/

/-- C11: a conditional branch with a readable target of value `t` ends in the
state with `pc = t` when its predicate holds on the flag and in the unchanged
state otherwise, so registers, `sp`, flags and stack are never changed; with
no flag set none of the six branches is taken. -/
theorem conditional_branch_tests_flag (m : machine_t) (ins : instruction_t)
    (hop : ins.operation = OPERATION_bne ∨ ins.operation = OPERATION_beq ∨
      ins.operation = OPERATION_blt ∨ ins.operation = OPERATION_bgt ∨
      ins.operation = OPERATION_ble ∨ ins.operation = OPERATION_bge)
    (hread : (ins.operands 0).type = OPERAND_constant ∨
      (ins.operands 0).type = OPERAND_address ∨
      (ins.operands 0).type = OPERAND_register) :
    ∃ t, get_value m (ins.operands 0) = some t ∧
      execute ins m =
        some (if spec_branch_taken ins.operation m.conditions = true
          then { m with pc := t } else m) ∧
      (m.conditions = 0 → execute ins m = some m) := by
  obtain ⟨t, ht⟩ := get_value_readable m (ins.operands 0) hread
  refine ⟨t, ht, ?_, ?_⟩
  · rcases hop with h | h | h | h | h | h <;>
      simp only [execute, execute_conditional_branch, h, ht, spec_branch_taken,
        Option.bind_eq_bind, Option.some_bind, Bool.or_eq_true, beq_iff_eq] <;>
      split_ifs <;> rfl
  · intro h0
    rcases hop with h | h | h | h | h | h <;>
      simp [execute, execute_conditional_branch, h, ht, h0]

/-- Witness of C11: `beq x1` in a state with the zero flag set. -/
theorem conditional_branch_tests_flag_witness :
    ∃ t, get_value zero_flag_machine
        ((⟨OPERATION_beq, ![reg_x 1, no_operand, no_operand]⟩ : instruction_t).operands 0)
          = some t ∧
      execute ⟨OPERATION_beq, ![reg_x 1, no_operand, no_operand]⟩ zero_flag_machine =
        some (if spec_branch_taken
            (⟨OPERATION_beq, ![reg_x 1, no_operand, no_operand]⟩ : instruction_t).operation
            zero_flag_machine.conditions = true
          then { zero_flag_machine with pc := t } else zero_flag_machine) ∧
      (zero_flag_machine.conditions = 0 →
        execute ⟨OPERATION_beq, ![reg_x 1, no_operand, no_operand]⟩ zero_flag_machine
          = some zero_flag_machine) :=
  conditional_branch_tests_flag zero_flag_machine
    ⟨OPERATION_beq, ![reg_x 1, no_operand, no_operand]⟩ (Or.inr (Or.inl rfl))
    (Or.inr (Or.inr rfl))

/-! ## Move and add -/

/-- C12: `mov x0, #a` followed by `add x0, x0, #b`, both through `execute`,
leaves register 0 equal to `(a + b) mod 2 ^ 64` and changes no other register,
nor `sp`, `pc`, the flags, the stack block or its bounds; `pc` is also
untouched after the first step. -/
theorem mov_then_add (m : machine_t) (a b : Nat) (unused : operand_t) :
    ∃ m1 m2, execute ⟨OPERATION_mov, ![reg_x 0, imm a, unused]⟩ m = some m1 ∧
      execute ⟨OPERATION_add, ![reg_x 0, reg_x 0, imm b]⟩ m1 = some m2 ∧
      m2.registers 0 = (a + b) % 2 ^ 64 ∧
      (∀ j, j ≠ 0 → m2.registers j = m.registers j) ∧
      m1.pc = m.pc ∧ m2.pc = m.pc ∧ m2.sp = m.sp ∧ m2.conditions = m.conditions ∧
      m2.stack = m.stack ∧ m2.stack_top = m.stack_top ∧ m2.stack_bot = m.stack_bot := by
  refine ⟨{ m with registers := Function.update m.registers 0 a },
    { m with
      registers := Function.update (Function.update m.registers 0 a) 0 ((a + b) % U64) },
    ?_, ?_, ?_, ?_, rfl, rfl, rfl, rfl, rfl, rfl, rfl⟩
  · simp [execute, execute_MSL, get_value, put_value, imm, reg_x]
  · simp [execute, execute_arithmetic, get_value, put_value, imm, reg_x,
      look_thru_registers]
  · simp [U64]
  · intro j hj
    simp [Function.update_noteq hj]

/-! ## Writes to operands that are not registers -/

/-- C16: `put_value` fails exactly when the operand kind is not register, and
succeeds exactly when it is; a failure yields no machine at all, the test being
the first step of the function. -/
theorem put_value_fails_iff (operand : operand_t) (value : Nat) (m : machine_t) :
    (put_value operand value m = none ↔ operand.type ≠ OPERAND_register) ∧
      ((put_value operand value m).isSome = true ↔ operand.type = OPERAND_register) := by
  unfold put_value
  by_cases h : operand.type = OPERAND_register
  · rw [if_pos h]
    cases operand.reg_type <;> simp [h]
  · rw [if_neg h]
    simp [h]

/-! ## The negative flag -/

/-- C20: after `cmp` on operand values `a` and `b` the flag is zero if
`a = b` and positive otherwise, never negative; a `blt` right after it leaves
the state as it is, and a `ble` right after it sets `pc` to its target when
`a = b` and leaves the state as it is otherwise. -/
theorem cmp_never_sets_negative (m : machine_t) (cmp blt ble : instruction_t) (a b : Nat)
    (hcmp : cmp.operation = OPERATION_cmp) (hblt : blt.operation = OPERATION_blt)
    (hble : ble.operation = OPERATION_ble)
    (ha : get_value m (cmp.operands 0) = some a) (hb : get_value m (cmp.operands 1) = some b)
    (ha64 : a < 2 ^ 64) (hb64 : b < 2 ^ 64)
    (hlt : (blt.operands 0).type = OPERAND_constant ∨
      (blt.operands 0).type = OPERAND_address ∨ (blt.operands 0).type = OPERAND_register)
    (hle : (ble.operands 0).type = OPERAND_constant ∨
      (ble.operands 0).type = OPERAND_address ∨ (ble.operands 0).type = OPERAND_register) :
    ∃ m1 t, execute cmp m = some m1 ∧
      m1 = { m with conditions := if a = b then CONDITION_ZERO else CONDITION_POSITIVE } ∧
      m1.conditions ≠ CONDITION_NEGATIVE ∧
      execute blt m1 = some m1 ∧
      get_value m1 (ble.operands 0) = some t ∧
      execute ble m1 = some (if a = b then { m1 with pc := t } else m1) := by
  have hsub : sub64 a b = 0 ↔ a = b := by
    simp only [sub64, U64]
    omega
  have hexec : execute cmp m
      = some { m with conditions := if a = b then CONDITION_ZERO else CONDITION_POSITIVE } := by
    by_cases hab : a = b
    · have h0 : sub64 a b = 0 := hsub.mpr hab
      simp [execute, hcmp, execute_compare, ha, hb, h0, if_pos hab]
    · have hne : sub64 a b ≠ 0 := fun h => hab (hsub.mp h)
      simp [execute, hcmp, execute_compare, ha, hb, hne, hab, Nat.pos_of_ne_zero hne]
  generalize hm1 : ({ m with conditions := if a = b then CONDITION_ZERO
    else CONDITION_POSITIVE } : machine_t) = m1 at hexec
  have hc : m1.conditions = if a = b then CONDITION_ZERO else CONDITION_POSITIVE := by
    rw [← hm1]
  have hneg : m1.conditions ≠ CONDITION_NEGATIVE := by
    rw [hc]
    split_ifs <;> decide
  obtain ⟨t, ht⟩ := get_value_readable m1 (ble.operands 0) hle
  obtain ⟨u, hu⟩ := get_value_readable m1 (blt.operands 0) hlt
  refine ⟨m1, t, hexec, rfl, hneg, ?_, ht, ?_⟩
  · simp [execute, hblt, execute_conditional_branch, hu, hneg]
  · by_cases hab : a = b
    · simp [execute, hble, execute_conditional_branch, ht, hc, hab]
    · simp [execute, hble, execute_conditional_branch, ht, hc, hab]

/-- Witness of C20: `cmp #1, #2`, then `blt x1` and `ble x1`. -/
theorem cmp_never_sets_negative_witness :
    ∃ m1 t,
      execute ⟨OPERATION_cmp, ![imm 1, imm 2, no_operand]⟩ zero_flag_machine = some m1 ∧
      m1 = { zero_flag_machine with
        conditions := if 1 = 2 then CONDITION_ZERO else CONDITION_POSITIVE } ∧
      m1.conditions ≠ CONDITION_NEGATIVE ∧
      execute ⟨OPERATION_blt, ![reg_x 1, no_operand, no_operand]⟩ m1 = some m1 ∧
      get_value m1
        ((⟨OPERATION_ble, ![reg_x 1, no_operand, no_operand]⟩ : instruction_t).operands 0)
          = some t ∧
      execute ⟨OPERATION_ble, ![reg_x 1, no_operand, no_operand]⟩ m1
        = some (if 1 = 2 then { m1 with pc := t } else m1) :=
  cmp_never_sets_negative zero_flag_machine
    ⟨OPERATION_cmp, ![imm 1, imm 2, no_operand]⟩
    ⟨OPERATION_blt, ![reg_x 1, no_operand, no_operand]⟩
    ⟨OPERATION_ble, ![reg_x 1, no_operand, no_operand]⟩ 1 2 rfl rfl rfl rfl rfl
    (by decide) (by decide) (Or.inr (Or.inr rfl)) (Or.inr (Or.inr rfl))

/-! ## Growth inside the range -/

/-- C18: for an address inside `[stack_top, stack_bot]`, `grow_stack` returns
the machine it was given, so a second `grow_stack` at the same address changes
nothing either. -/
theorem grow_stack_inside_unchanged (m : machine_t) (a : Nat)
    (h1 : m.stack_top ≤ a) (h2 : a ≤ m.stack_bot) :
    grow_stack a m = m ∧ grow_stack a (grow_stack a m) = grow_stack a m := by
  have h : grow_stack a m = m := by
    unfold grow_stack
    rw [if_neg (by omega), if_neg (by omega)]
  rw [h]
  exact ⟨rfl, h⟩

/-- Witness of C18: address 4100 inside the one-word stack at 4096..4103. -/
theorem grow_stack_inside_unchanged_witness :
    grow_stack 4100 (one_word_machine 4096 0) = one_word_machine 4096 0 ∧
      grow_stack 4100 (grow_stack 4100 (one_word_machine 4096 0))
        = grow_stack 4100 (one_word_machine 4096 0) :=
  grow_stack_inside_unchanged (one_word_machine 4096 0) 4100 (by decide) (by decide)

/-! ## The 64-bit store, negation and division -/

/-- C13, at a failing input: with the stack at 4096..4111 holding 16 zero
bytes, `sp = 4104` and `x1 = 0x1122334455667788`, the effective address of
`[sp]` is 4104, at offset 8 of the block.  After `str x1, [sp]` the offsets 8 to
15 hold only the low 4 bytes of `x1`, and the offsets 0 to 7, outside the
target, hold the 8 bytes of `x1`. -/
theorem str_x_writes_at_stack_top :
    stack_inv (two_word_machine 0x1122334455667788) ∧
      get_memory_address (two_word_machine 0x1122334455667788) mem_sp = some 4104 ∧
      le_bytes 8 0x1122334455667788 = [0x88, 0x77, 0x66, 0x55, 0x44, 0x33, 0x22, 0x11] ∧
      (execute ⟨OPERATION_str, ![reg_x 1, mem_sp, no_operand]⟩
          (two_word_machine 0x1122334455667788)).map (fun m => m.stack)
        = some [0x88, 0x77, 0x66, 0x55, 0x44, 0x33, 0x22, 0x11,
            0x88, 0x77, 0x66, 0x55, 0, 0, 0, 0] := by
  refine ⟨?_, by decide, by decide, by decide⟩
  simp only [stack_inv, two_word_machine, List.length_replicate]
  decide

/-- C14, at a failing input: `neg x0, x1` stops on the `assert` of `get_value`
when its third operand slot is unused, and when it holds a memory operand,
because operand 2 is read before the opcode is looked at; with a readable
third operand, `neg x0, #5` writes `2 ^ 64 - 5`. -/
theorem neg_reads_third_operand (m : machine_t) :
    execute ⟨OPERATION_neg, ![reg_x 0, reg_x 1, no_operand]⟩ m = none ∧
      execute ⟨OPERATION_neg, ![reg_x 0, reg_x 1, mem_sp]⟩ m = none ∧
      execute ⟨OPERATION_neg, ![reg_x 0, imm 5, imm 0]⟩ m
        = some { m with registers := Function.update m.registers 0 (2 ^ 64 - 5) } := by
  refine ⟨?_, ?_, ?_⟩
  · simp [execute, execute_arithmetic, get_value, reg_x, no_operand]
  · simp [execute, execute_arithmetic, get_value, reg_x, mem_sp]
  · have h : to_u64 (-1) * 5 % U64 = 2 ^ 64 - 5 := by decide
    simp [execute, execute_arithmetic, get_value, reg_x, imm, put_value, h]

/-- C15 as stated fails at `a = 2 ^ 64 - 8` (that is -8) and `b = 2`: `sdiv`
writes `2 ^ 63 - 4`, the unsigned quotient, while the signed quotient -4 is
encoded as `2 ^ 64 - 4`. -/
theorem sdiv_minus_eight_by_two :
    (execute ⟨OPERATION_sdiv, ![reg_x 0, imm (2 ^ 64 - 8), imm 2]⟩
        (one_word_machine 4096 0)).map (fun m => m.registers 0) = some (2 ^ 63 - 4) ∧
      to_u64 (Int.tdiv (to_signed64 (2 ^ 64 - 8)) (to_signed64 2)) = 2 ^ 64 - 4 ∧
      (2 ^ 63 - 4 : Nat) ≠ 2 ^ 64 - 4 := by
  decide

/-- C15, amended: for operand values `a` and `b` with `b` not 0, `sdiv` with a
64-bit destination writes the unsigned floor quotient `a / b`, exactly as
`udiv` does; that is the encoding of the signed quotient truncated toward zero
whenever `a` and `b` are both below `2 ^ 63`. -/
theorem sdiv_is_unsigned_quotient (m : machine_t) (ins : instruction_t) (a b : Nat)
    (hop : ins.operation = OPERATION_sdiv ∨ ins.operation = OPERATION_udiv)
    (hdst : (ins.operands 0).type = OPERAND_register)
    (hx : (ins.operands 0).reg_type = REGISTER_x)
    (ha : get_value m (ins.operands 1) = some a) (hb : get_value m (ins.operands 2) = some b)
    (hb0 : b ≠ 0) :
    execute ins m =
        some { m with
          registers := Function.update m.registers (ins.operands 0).reg_num (a / b) } ∧
      (a < 2 ^ 63 → b < 2 ^ 63 →
        to_u64 (Int.tdiv (to_signed64 a) (to_signed64 b)) = a / b) := by
  constructor
  · rcases hop with h | h <;>
      simp [execute, execute_arithmetic, h, ha, hb, hb0, put_value, hdst, hx]
  · intro h1 h2
    have hq : a / b < 2 ^ 64 := by
      have := Nat.div_le_self a b
      omega
    rw [to_signed64, to_signed64, if_pos h1, if_pos h2, ← Int.ofNat_tdiv]
    exact to_u64_natCast _ hq

/-- Witness of the amended C15: `sdiv x0, #7, #2`. -/
theorem sdiv_is_unsigned_quotient_witness :
    execute ⟨OPERATION_sdiv, ![reg_x 0, imm 7, imm 2]⟩ (one_word_machine 4096 0) =
        some { one_word_machine 4096 0 with
          registers := Function.update (one_word_machine 4096 0).registers
            ((⟨OPERATION_sdiv, ![reg_x 0, imm 7, imm 2]⟩ : instruction_t).operands 0).reg_num
            (7 / 2) } ∧
      (7 < 2 ^ 63 → 2 < 2 ^ 63 →
        to_u64 (Int.tdiv (to_signed64 7) (to_signed64 2)) = 7 / 2) :=
  sdiv_is_unsigned_quotient (one_word_machine 4096 0)
    ⟨OPERATION_sdiv, ![reg_x 0, imm 7, imm 2]⟩ 7 2 (Or.inl rfl) rfl rfl rfl rfl (by decide)

/-! ## The 32-bit store and load -/

theorem load_bytes_store_bytes_disjoint (buf bs : List Nat) (off off2 n : Nat)
    (h : off2 + n ≤ off ∨ off + bs.length ≤ off2) :
    load_bytes (store_bytes buf off bs) off2 n = load_bytes buf off2 n := by
  apply List.ext_getElem?
  intro i
  by_cases hi : i < n
  · rw [getElem?_load_bytes _ _ _ _ hi, getElem?_load_bytes _ _ _ _ hi,
      List.getD_eq_getElem?_getD, List.getD_eq_getElem?_getD, getElem?_store_bytes,
      if_neg (by omega)]
  · rw [List.getElem?_eq_none (by rw [length_load_bytes]; omega),
      List.getElem?_eq_none (by rw [length_load_bytes]; omega)]

theorem load_bytes_replicate (N c off n : Nat) (h : off + n ≤ N) :
    load_bytes (List.replicate N c) off n = List.replicate n c := by
  apply List.ext_getElem?
  intro i
  by_cases hi : i < n
  · rw [getElem?_load_bytes _ _ _ _ hi, List.getD_eq_getElem?_getD,
      List.getElem?_replicate, if_pos (by omega), List.getElem?_replicate, if_pos hi]
    rfl
  · rw [List.getElem?_eq_none (by rw [length_load_bytes]; omega),
      List.getElem?_eq_none (by rw [List.length_replicate]; omega)]

/-- What `str` does with a w-register source, when its write lies inside the
stack block. -/
theorem execute_str_w (m : machine_t) (ins : instruction_t)
    (hop : ins.operation = OPERATION_str)
    (hsrc : (ins.operands 0).type = OPERAND_register)
    (hw : (ins.operands 0).reg_type = REGISTER_w)
    (hmem : (ins.operands 1).type = OPERAND_memory)
    (hin : 4 * ((sub64 ((look_thru_registers m (ins.operands 1)
      + (ins.operands 1).constant) % U64) m.stack_top / 4) % U32) + 4 ≤ m.stack.length) :
    execute ins m =
      some { m with
        stack := store_bytes m.stack
          (4 * ((sub64 ((look_thru_registers m (ins.operands 1)
              + (ins.operands 1).constant) % U64) m.stack_top / 4) % U32))
          (le_bytes 4 (m.registers (ins.operands 0).reg_num % 2 ^ 32)) } := by
  have hmask : ∀ v : Nat, (v % 4294967296 &&& 4294967295) % U32 = v % 4294967296 := by
    intro v
    have h := Nat.and_pow_two_sub_one_eq_mod (v % 4294967296) 32
    norm_num at h
    rw [h]
    simp only [U32]
    omega
  simp only [execute, hop, execute_MSL, get_memory_address, hmem, get_value_w m _ hsrc hw]
  simp [hw, hmask, in_block, hin]

/-- What `ldr` does with a w-register destination, when its read lies inside
the stack block. -/
theorem execute_ldr_w (m : machine_t) (ins : instruction_t)
    (hop : ins.operation = OPERATION_ldr)
    (hw : (ins.operands 0).reg_type = REGISTER_w)
    (hmem : (ins.operands 1).type = OPERAND_memory)
    (hin : 4 * (sub64 ((look_thru_registers m (ins.operands 1)
      + (ins.operands 1).constant) % U64) m.stack_top / 4) + 4 ≤ m.stack.length) :
    execute ins m =
      put_value (ins.operands 0)
        (le_value (load_bytes m.stack
          (4 * (sub64 ((look_thru_registers m (ins.operands 1)
              + (ins.operands 1).constant) % U64) m.stack_top / 4)) 4)) m := by
  simp [execute, hop, execute_MSL, get_memory_address, hmem, hw, in_block, hin]

theorem look_thru_registers_stack (m : machine_t) (s : List Nat) (o : operand_t) :
    look_thru_registers { m with stack := s } o = look_thru_registers m o := rfl

theorem put_value_w_register (m : machine_t) (o : operand_t) (v : Nat)
    (h0 : o.type = OPERAND_register) (hw : o.reg_type = REGISTER_w) :
    put_value o v m =
      some { m with registers := Function.update m.registers o.reg_num (v % 2 ^ 32) } := by
  have : v * 2 ^ 32 % U64 / 2 ^ 32 = v % 2 ^ 32 := by
    simp only [U64]
    omega
  simp only [put_value, h0, hw, if_true, this]

/-- The 32-bit store and load agree as long as the word index of the store
fits its `uint32_t`: the register read back is the low half of the source,
the 4 bytes at the address hold it, and no other byte changes. -/
theorem str_ldr_w_round_trip (m : machine_t) (st ld : instruction_t) (ea : Nat)
    (hst : st.operation = OPERATION_str) (hld : ld.operation = OPERATION_ldr)
    (hs0 : (st.operands 0).type = OPERAND_register)
    (hsw : (st.operands 0).reg_type = REGISTER_w)
    (hl0 : (ld.operands 0).type = OPERAND_register)
    (hlw : (ld.operands 0).reg_type = REGISTER_w)
    (hM : ld.operands 1 = st.operands 1)
    (hea : get_memory_address m (st.operands 1) = some ea)
    (hinv : stack_inv m)
    (hal : ea % 4 = 0) (h1 : m.stack_top ≤ ea) (h2 : ea + 3 ≤ m.stack_bot)
    (hsmall : (ea - m.stack_top) / 4 < 2 ^ 32) :
    ∃ m1 m2, execute st m = some m1 ∧ execute ld m1 = some m2 ∧
      m2.registers (ld.operands 0).reg_num = m.registers (st.operands 0).reg_num % 2 ^ 32 ∧
      load_bytes m2.stack (ea - m.stack_top) 4
        = le_bytes 4 (m.registers (st.operands 0).reg_num % 2 ^ 32) ∧
      ∀ i, i < ea - m.stack_top ∨ ea - m.stack_top + 4 ≤ i → m2.stack[i]? = m.stack[i]? := by
  obtain ⟨i1, i2, i3, i4⟩ := hinv
  have hmem : (st.operands 1).type = OPERAND_memory := by
    by_contra hne
    simp [get_memory_address, hne] at hea
  have hval :
      (look_thru_registers m (st.operands 1) + (st.operands 1).constant) % U64 = ea := by
    simpa [get_memory_address, hmem] using hea
  have hoff1 : 4 * ((sub64 ea m.stack_top / 4) % U32) = ea - m.stack_top := by
    simp only [sub64, U64, U32] at hsmall ⊢
    omega
  have hoff2 : 4 * (sub64 ea m.stack_top / 4) = ea - m.stack_top := by
    simp only [sub64, U64]
    omega
  have e1 := execute_str_w m st hst hs0 hsw hmem (by rw [hval, hoff1]; omega)
  rw [hval, hoff1] at e1
  have e2 := execute_ldr_w
    { m with
      stack := store_bytes m.stack (ea - m.stack_top)
        (le_bytes 4 (m.registers (st.operands 0).reg_num % 2 ^ 32)) }
    ld hld hlw (by rw [hM]; exact hmem)
    (by
      rw [hM, look_thru_registers_stack, hval, hoff2]
      show ea - m.stack_top + 4 ≤ (store_bytes m.stack _ _).length
      rw [length_store_bytes]
      omega)
  rw [hM, look_thru_registers_stack, hval] at e2
  simp only [hoff2] at e2
  have hload : load_bytes (store_bytes m.stack (ea - m.stack_top)
      (le_bytes 4 (m.registers (st.operands 0).reg_num % 2 ^ 32))) (ea - m.stack_top) 4
      = le_bytes 4 (m.registers (st.operands 0).reg_num % 2 ^ 32) := by
    have := load_bytes_store_bytes m.stack
      (le_bytes 4 (m.registers (st.operands 0).reg_num % 2 ^ 32)) (ea - m.stack_top)
      (by rw [length_le_bytes]; omega)
    rwa [length_le_bytes] at this
  rw [hload, le_value_le_bytes, put_value_w_register _ _ _ hl0 hlw] at e2
  refine ⟨_, _, e1, e2, ?_, hload, ?_⟩
  · simp only [Function.update_same]
    omega
  · intro i hi
    show (store_bytes m.stack (ea - m.stack_top) _)[i]? = m.stack[i]?
    rw [getElem?_store_bytes, if_neg (by rw [length_le_bytes]; omega)]

/-- C17, at a failing input: the stack at 4096 has `2 ^ 34 + 8` bytes, `sp` is
at byte offset `2 ^ 34` of it, 4-byte-aligned and inside the stack, and
`w1 = 0xDEADBEEF`.  The word index `2 ^ 32` of the store is cut to 32 bits, so
`str w1, [sp]` writes at byte offset 0, and `ldr w2, [sp]`, which reads at the
byte offset `2 ^ 34`, leaves register 2 equal to 0. -/
theorem str_w_cuts_word_index :
    stack_inv big_stack_machine ∧
      get_memory_address big_stack_machine (str_w1_sp.operands 1) = some (4096 + 2 ^ 34) ∧
      (4096 + 2 ^ 34) % 4 = 0 ∧ big_stack_machine.stack_top ≤ 4096 + 2 ^ 34 ∧
      4096 + 2 ^ 34 + 3 ≤ big_stack_machine.stack_bot ∧
      big_stack_machine.registers 1 % 2 ^ 32 = 0xDEADBEEF ∧
      (execute str_w1_sp big_stack_machine).map (fun m => load_bytes m.stack 0 4)
        = some [0xEF, 0xBE, 0xAD, 0xDE] ∧
      ((execute str_w1_sp big_stack_machine).bind (execute ldr_w2_sp)).map
        (fun m => m.registers 2) = some 0 := by
  have hlen : big_stack_machine.stack.length = 2 ^ 34 + 8 := by
    simp only [big_stack_machine, List.length_replicate]
  have hs : execute str_w1_sp big_stack_machine =
      some { big_stack_machine with
        stack := store_bytes big_stack_machine.stack 0 [0xEF, 0xBE, 0xAD, 0xDE] } := by
    have e1 : 4 * ((sub64 ((look_thru_registers big_stack_machine (str_w1_sp.operands 1)
        + (str_w1_sp.operands 1).constant) % U64) big_stack_machine.stack_top / 4) % U32)
        = 0 := by decide
    have e2 : le_bytes 4 (big_stack_machine.registers (str_w1_sp.operands 0).reg_num % 2 ^ 32)
        = [0xEF, 0xBE, 0xAD, 0xDE] := by decide
    rw [execute_str_w big_stack_machine str_w1_sp rfl rfl rfl rfl
      (by rw [e1, hlen]; decide), e1, e2]
  have hl : execute ldr_w2_sp
      { big_stack_machine with
        stack := store_bytes big_stack_machine.stack 0 [0xEF, 0xBE, 0xAD, 0xDE] } =
      some { big_stack_machine with
        stack := store_bytes big_stack_machine.stack 0 [0xEF, 0xBE, 0xAD, 0xDE]
        registers := Function.update big_stack_machine.registers 2 0 } := by
    have e3 : 4 * (sub64 ((look_thru_registers big_stack_machine (ldr_w2_sp.operands 1)
        + (ldr_w2_sp.operands 1).constant) % U64) big_stack_machine.stack_top / 4)
        = 2 ^ 34 := by decide
    rw [execute_ldr_w _ ldr_w2_sp rfl rfl rfl
      (by
        rw [look_thru_registers_stack, e3]
        show 2 ^ 34 + 4 ≤ (store_bytes big_stack_machine.stack _ _).length
        rw [length_store_bytes, hlen]
        decide),
      look_thru_registers_stack]
    simp only [e3]
    rw [load_bytes_store_bytes_disjoint _ _ _ _ _ (Or.inr (by decide))]
    have e4 : load_bytes big_stack_machine.stack (2 ^ 34) 4 = List.replicate 4 0 :=
      load_bytes_replicate (2 ^ 34 + 8) 0 (2 ^ 34) 4 (by decide)
    rw [e4, put_value_w_register _ _ _ rfl rfl]
    rfl
  refine ⟨?_, by decide, by decide, by decide, by decide, by decide, ?_, ?_⟩
  · refine ⟨by decide, by decide, by decide, ?_⟩
    rw [hlen]
    decide
  · rw [hs]
    simp only [Option.map_some']
    have := load_bytes_store_bytes big_stack_machine.stack [0xEF, 0xBE, 0xAD, 0xDE] 0
      (by rw [hlen]; decide)
    exact congrArg some this
  · rw [hs, Option.some_bind, hl, Option.map_some']
    simp only [Function.update_same]

/-! ## Bytes that growth adds -/

/-- C19 as stated fails in the state whose stack is the single byte at address
0: `a = 2 ^ 64 - 1` is outside the range, its rounding wraps to 0, `malloc` is
asked for 0 bytes, the `memset` and the `memcpy` have length 0 and lie inside
their blocks, and the call returns with the range 0 to `2 ^ 64 - 1` and an
empty block, which holds no byte for the new address 1. -/
theorem grow_stack_one_byte_whole_range :
    one_byte_machine.stack_top ≤ one_byte_machine.stack_bot ∧
      one_byte_machine.stack.length
        = one_byte_machine.stack_bot - one_byte_machine.stack_top + 1 ∧
      one_byte_machine.stack_bot < 2 ^ 64 - 1 ∧
      grow_stack_in_block (2 ^ 64 - 1) one_byte_machine = true ∧
      (grow_stack (2 ^ 64 - 1) one_byte_machine).stack_top = 0 ∧
      (grow_stack (2 ^ 64 - 1) one_byte_machine).stack_bot = 2 ^ 64 - 1 ∧
      (grow_stack (2 ^ 64 - 1) one_byte_machine).stack = [] ∧
      (grow_stack (2 ^ 64 - 1) one_byte_machine).stack[
          1 - (grow_stack (2 ^ 64 - 1) one_byte_machine).stack_top]? = none := by
  decide

/-- C19, amended: when the grown range has fewer than `2 ^ 64` bytes,
`grow_stack a` lies inside its blocks and every address of the new range that
was not in the old range holds the byte 0 afterwards, for growth in either
direction. -/
theorem grow_stack_new_bytes_zero (m : machine_t) (a : Nat)
    (hrange : m.stack_top ≤ m.stack_bot) (hbot : m.stack_bot < 2 ^ 64) (ha : a < 2 ^ 64)
    (hlen : m.stack.length = m.stack_bot - m.stack_top + 1)
    (hout : a < m.stack_top ∨ m.stack_bot < a)
    (hfit : (grow_stack a m).stack_bot - (grow_stack a m).stack_top + 1 < 2 ^ 64) :
    grow_stack_in_block a m = true ∧
      ∀ x, (grow_stack a m).stack_top ≤ x → x ≤ (grow_stack a m).stack_bot →
        x < m.stack_top ∨ m.stack_bot < x →
        (grow_stack a m).stack[x - (grow_stack a m).stack_top]? = some 0 := by
  by_cases hup : a < m.stack_top
  · have hin : grow_stack_in_block a m = true := by
      rw [grow_stack_in_block_up m a hup hrange hbot]
      rw [grow_stack_up m a hup hrange hbot] at hfit
      simp only at hfit
      omega
    refine ⟨hin, ?_⟩
    intro x hx1 hx2 hnew
    rw [grow_stack_up m a hup hrange hbot] at hfit hx1 hx2 ⊢
    simp only at hfit hx1 hx2 ⊢
    have hle : a - a % 8 ≤ a := Nat.sub_le _ _
    generalize a - a % 8 = b at hle hfit hx1 hx2 ⊢
    rw [memcpy, getElem?_store_bytes, if_neg (by omega)]
    exact getElem?_memset _ _ _ _ _
      ⟨by omega, by omega, by rw [length_malloc]; simp only [U64]; omega⟩
  · have hdown : m.stack_bot < a := by omega
    have hin : grow_stack_in_block a m = true := by
      apply grow_stack_in_block_down m a hup hdown hrange ha (by omega)
      rw [grow_stack_down m a hup hdown] at hfit
      exact hfit
    refine ⟨hin, ?_⟩
    intro x hx1 hx2 hnew
    rw [grow_stack_down m a hup hdown] at hfit hx1 hx2 ⊢
    simp only at hfit hx1 hx2 ⊢
    have hr : (a + (8 - a % 8)) % U64 = (a + (8 - a % 8)) % 2 ^ 64 := rfl
    generalize (a + (8 - a % 8)) % U64 = r at hr hfit hx1 hx2 ⊢
    simp only [sub64, U64] at hfit hx1 hx2 ⊢
    rw [memcpy, getElem?_store_bytes, if_neg (by rw [length_load_bytes]; omega)]
    exact getElem?_memset _ _ _ _ _
      ⟨by omega, by omega, by rw [length_malloc]; simp only [U64]; omega⟩

/-- Witness of the amended C19: growth from the one-word stack at 4096..4103
down to address 4110. -/
theorem grow_stack_new_bytes_zero_witness :
    grow_stack_in_block 4110 (one_word_machine 4096 0) = true ∧
      ∀ x, (grow_stack 4110 (one_word_machine 4096 0)).stack_top ≤ x →
        x ≤ (grow_stack 4110 (one_word_machine 4096 0)).stack_bot →
        x < (one_word_machine 4096 0).stack_top ∨ (one_word_machine 4096 0).stack_bot < x →
        (grow_stack 4110 (one_word_machine 4096 0)).stack[
          x - (grow_stack 4110 (one_word_machine 4096 0)).stack_top]? = some 0 :=
  grow_stack_new_bytes_zero (one_word_machine 4096 0) 4110 (by decide) (by decide)
    (by decide) (by decide) (by decide) (by decide)

end ASMSim
